import Mathlib

/-!
Verification of the mwccgap splicing pipeline (`mwccgap/mwccgap.py`).

The development shallowly embeds the pure logic of the pipeline:

* the per-line scan of a hand-written assembly file that sizes the no-op
  placeholder and the read-only-data placeholder arrays
  (`preprocess_c_file`, inner loop);
* the `INCLUDE_ASM` macro recognition and rewriting of a C translation
  unit (`preprocess_c_file`, outer loop), with the filesystem modelled
  as an association list of file paths to contents;
* the ELF object model used by the pipeline (the `elf` module of the
  repository is not part of the sources; the operations the pipeline
  calls are modelled from the specification, and each such definition
  is marked `Modelled from the spec`), and the per-file splicing of
  assembled machine code into the compiled object (`process_c_file`).

Python strings are modelled as Lean `String`s; the string operations the
source uses (`strip`, `rstrip`, `startswith`, `endswith`, `split`,
`find`) are implemented here as structural recursions over the
character list so that every definition evaluates by `rfl`/`decide`.
-/

namespace Mwccgap

/-! ## String primitives (models of the Python `str` methods used) -/

/-- Whitespace characters stripped by Python's `str.strip`. -/
def wsChar (c : Char) : Bool :=
  c = ' ' || c = '\t' || c = '\n' || c = '\r' || c = '\x0b' || c = '\x0c'

/-- Model of Python `s.startswith(p)`. -/
def strStartsWith (s p : String) : Bool :=
  p.data.isPrefixOf s.data

/-- Model of Python `s.endswith(p)`. -/
def strEndsWith (s p : String) : Bool :=
  p.data.reverse.isPrefixOf s.data.reverse

/-- Model of Python `s.strip()`. -/
def strStrip (s : String) : String :=
  ⟨((s.data.dropWhile wsChar).reverse.dropWhile wsChar).reverse⟩

/-- Model of Python `s.rstrip()`. -/
def strRstrip (s : String) : String :=
  ⟨(s.data.reverse.dropWhile wsChar).reverse⟩

/-- Fuel-driven splitting of a character list at every occurrence of a
(nonempty) separator; the fuel is always instantiated to more than the
length of the list, which suffices. -/
def splitChars (sep : List Char) : Nat → List Char → List Char → List (List Char)
  | 0, l, acc => [acc.reverse ++ l]
  | fuel + 1, l, acc =>
    match l with
    | [] => [acc.reverse]
    | c :: cs =>
      if sep.isPrefixOf (c :: cs) then
        acc.reverse :: splitChars sep fuel (List.drop sep.length (c :: cs)) []
      else
        splitChars sep fuel cs (c :: acc)

/-- Model of Python `s.split(sep)` for a nonempty separator. -/
def strSplitOn (s sep : String) : List String :=
  (splitChars sep.data (s.data.length + 1) s.data []).map (fun l => ⟨l⟩)

/-- `True` iff `sub` occurs in `s`; model of Python `s.find(sub) > -1`
for a nonempty `sub`. -/
def strContainsSub (s sub : String) : Bool :=
  decide ((strSplitOn s sub).length > 1)

/-- Model of Python `sep.join(parts)`. -/
def strIntercalate : String → List String → String
  | _, [] => ""
  | _, [s] => s
  | sep, s :: rest => s ++ sep ++ strIntercalate sep (rest)

/-- Model of Python `s[:-n]` (used for `Path.stem`). -/
def strDropRight (s : String) (n : Nat) : String :=
  ⟨s.data.take (s.data.length - n)⟩

/-- Model of Python `s[n:]`. -/
def strDrop (s : String) (n : Nat) : String :=
  ⟨s.data.drop n⟩

/-- Model of Python `n * s` on strings. -/
def repeatStr : Nat → String → String
  | 0, _ => ""
  | n + 1, s => s ++ repeatStr n s

/-- One decimal digit as a character. -/
def digitChar : Nat → Char
  | 0 => '0' | 1 => '1' | 2 => '2' | 3 => '3' | 4 => '4'
  | 5 => '5' | 6 => '6' | 7 => '7' | 8 => '8' | 9 => '9'
  | _ => '?'

/-- Fuel-driven decimal digits of a natural number. -/
def natDigits : Nat → Nat → List Char
  | 0, _ => []
  | fuel + 1, n => if n < 10 then [digitChar n] else natDigits fuel (n / 10) ++ [digitChar (n % 10)]

/-- Decimal rendering of a natural number (model of Python f-string `{n}`). -/
def natToStr (n : Nat) : String :=
  ⟨natDigits (n + 1) n⟩

/-! ## Assembly preprocessor: the per-line scan of one assembly file

Faithful translation of the inner loop of `preprocess_c_file`
(`mwccgap.py` lines 87-157): count no-op slots needed for the
placeholder and the byte size of every read-only-data symbol. -/

def INCLUDE_ASM : String := "INCLUDE_ASM"

def FUNCTION_PREFIX : String := "mwccgap_"

/-- Errors raised by the per-line scan of one assembly file. -/
inductive AsmErr where
  | unsupportedSection (line : String)
  | unexpectedRodataEntry (line : String)
  | glabelSplitError (line : String)
  | rodataSymbolUnbound (line : String)
  deriving Repr, DecidableEq

/-- Scan state of the assembly-file loop: the `in_rodata` flag, the
`rodata_entries` insertion-ordered dict, the currently bound
`rodata_symbol` variable, and the running `nops_needed` count. -/
structure ScanState where
  in_rodata : Bool
  rodata_entries : List (String × Nat)
  rodata_symbol : Option String
  nops_needed : Nat
  deriving Repr, DecidableEq

def initScanState : ScanState := ⟨false, [], none, 0⟩

/-- Python dict assignment `d[k] = v`: overwrite in place if the key is
present, else append (insertion order preserved). -/
def dictSet (l : List (String × Nat)) (k : String) (v : Nat) : List (String × Nat) :=
  if l.any (fun p => p.1 == k) then
    l.map (fun p => if p.1 == k then (p.1, v) else p)
  else
    l ++ [(k, v)]

/-- Python dict in-place addition `d[k] += d0` (the key is present at
every use site, since binding `rodata_symbol` also inserts it). -/
def dictAdd (l : List (String × Nat)) (k : String) (d0 : Nat) : List (String × Nat) :=
  l.map (fun p => if p.1 == k then (p.1, p.2 + d0) else p)

/-- Python dict lookup `d[k]` as an `Option`. -/
def dictLookup (l : List (String × Nat)) (k : String) : Option Nat :=
  (l.find? (fun p => p.1 == k)).map (fun p => p.2)

/-- One iteration of the assembly-file scan loop (`mwccgap.py` 91-144),
translated branch by branch in source order. -/
def processAsmLine (st : ScanState) (raw : String) : Except AsmErr ScanState :=
  let asm_line := strStrip raw
  if asm_line = "" then .ok st
  else if strStartsWith asm_line ".section" then
    (if strEndsWith asm_line ".text" then .ok { st with in_rodata := false }
     else if strEndsWith asm_line ".rodata" then .ok { st with in_rodata := true }
     else .error (.unsupportedSection asm_line))
  else if st.in_rodata then
    (if strStartsWith asm_line ".align" then .ok st
     else if strStartsWith asm_line ".size" then .ok st
     else if strStartsWith asm_line "glabel" then
       (match strSplitOn asm_line " " with
        | [_, sym] =>
          .ok { st with rodata_entries := dictSet st.rodata_entries sym 0,
                        rodata_symbol := some sym }
        | _ => .error (.glabelSplitError asm_line))
     else if (strSplitOn asm_line " .word ").length > 1 then
       (match st.rodata_symbol with
        | some sym => .ok { st with rodata_entries := dictAdd st.rodata_entries sym 4 }
        | none => .error (.rodataSymbolUnbound asm_line))
     else .error (.unexpectedRodataEntry asm_line))
  else
    if strStartsWith asm_line ".set" then .ok st
    else if strStartsWith asm_line ".include" then .ok st
    else if strStartsWith asm_line ".size" then .ok st
    else if strStartsWith asm_line ".align" || strStartsWith asm_line ".balign" then .ok st
    else if strStartsWith asm_line "glabel" || strStartsWith asm_line "jlabel" then .ok st
    else if strStartsWith asm_line ".L" && strEndsWith asm_line ":" then .ok st
    else if strStartsWith asm_line "/* Generated by spimdisasm" then .ok st
    else .ok { st with nops_needed := st.nops_needed + 1 }

/-- The whole scan loop over the lines of one assembly file. -/
def processAsmLines : ScanState → List String → Except AsmErr ScanState
  | st, [] => .ok st
  | st, l :: rest =>
    match processAsmLine st l with
    | .error e => .error e
    | .ok st1 => processAsmLines st1 rest

/-- Result of scanning one assembly file: the no-op count and the
read-only-data entries (symbol, byte size), in discovery order. -/
def scanAsmFile (lines : List String) : Except AsmErr (Nat × List (String × Nat)) :=
  match processAsmLines initScanState lines with
  | .error e => .error e
  | .ok st => .ok (st.nops_needed, st.rodata_entries)

/-- The placeholder constant-array line emitted for one read-only-data
symbol (`mwccgap.py` 151-157), given the word count already divided. -/
def rodataStubLine (symbol : String) (words_needed : Nat) : String :=
  "const long " ++ symbol ++ "[" ++ natToStr words_needed ++ "] = \x7b" ++
    repeatStr words_needed "0, " ++ "\x7d;"

/-- The placeholder lines for all read-only-data symbols: each entry of
byte size `S` becomes an array of `S / 4` zero elements. -/
def rodataStubLines (entries : List (String × Nat)) : List String :=
  entries.map (fun p => rodataStubLine p.1 (p.2 / 4))

/-- The lines substituted for one `INCLUDE_ASM` macro (`mwccgap.py`
146-157): the placeholder function full of no-ops, then the placeholder
constant arrays. -/
def stubLines (asm_function : String) (nops_needed : Nat)
    (entries : List (String × Nat)) : List String :=
  ("asm void " ++ FUNCTION_PREFIX ++ asm_function ++ "() \x7b") ::
    (List.replicate nops_needed "nop" ++ ("\x7d" :: rodataStubLines entries))

/-! ## Specification-side instruction-slot count (for claim C3)

The count described by the spec: outside read-only-data, every
non-empty line that is not a section directive and not one of the
skipped forms counts as exactly one instruction slot. -/

/-- How a section directive line updates the read-only-data flag. -/
def sectionFlagStep (in_rodata : Bool) (l : String) : Bool :=
  if strEndsWith l ".text" then false
  else if strEndsWith l ".rodata" then true
  else in_rodata

/-- The skipped forms outside read-only-data, as the spec enumerates
them: `.set`, `.include`, `.size`, alignment directives, function and
jump-table labels, `.L`-prefixed label lines, the disassembler banner. -/
def skippedOutsideRodata (l : String) : Bool :=
  strStartsWith l ".set" || strStartsWith l ".include" || strStartsWith l ".size" ||
  strStartsWith l ".align" || strStartsWith l ".balign" ||
  strStartsWith l "glabel" || strStartsWith l "jlabel" ||
  (strStartsWith l ".L" && strEndsWith l ":") ||
  strStartsWith l "/* Generated by spimdisasm"

/-- Flag evolution for one raw line. -/
def slotFlagStep (in_rodata : Bool) (raw : String) : Bool :=
  let l := strStrip raw
  if l = "" then in_rodata
  else if strStartsWith l ".section" then sectionFlagStep in_rodata l
  else in_rodata

/-- Whether one raw line counts as an instruction slot (1) or not (0). -/
def slotInc (in_rodata : Bool) (raw : String) : Nat :=
  let l := strStrip raw
  if l = "" then 0
  else if strStartsWith l ".section" then 0
  else if in_rodata then 0
  else if skippedOutsideRodata l then 0
  else 1

/-- Slot count of a line list starting from a given flag. -/
def countSlots : Bool → List String → Nat
  | _, [] => 0
  | ro, raw :: rest => slotInc ro raw + countSlots (slotFlagStep ro raw) rest

/-- The spec-side instruction-slot count of an assembly file. -/
def countInstructionSlots (lines : List String) : Nat :=
  countSlots false lines

/-! ## The `INCLUDE_ASM` macro and the C-file rewrite (outer loop)

Model of Python `re.match` on the pattern `INCLUDE_ASM\("(.*)", (.*)\)`
with greedy-backtracking semantics, and of the outer loop of
`preprocess_c_file` (`mwccgap.py` lines 55-162). The filesystem is an
association list from file path to file content (as a line list, the
result of splitting the file text at newlines). -/

/-- Greedy group 2 of the regex: everything up to the last `)`;
`none` when the string has no `)` at all. -/
def cutLastParen (s : String) : Option String :=
  match strSplitOn s ")" with
  | [] => none
  | [_] => none
  | p :: ps => some (strIntercalate ")" ((p :: ps).dropLast))

/-- Greedy choice of the split point between group 1 and group 2 (the
quote-comma-space separator): Python's backtracking prefers the
rightmost separator occurrence whose suffix still contains a `)`. The
argument is the list of parts of the text after the macro opening,
split at every separator occurrence. -/
def greedySplit : List String → Option (String × String)
  | [] => none
  | [_] => none
  | p :: ps =>
    match greedySplit ps with
    | some (g1, g2) => some (p ++ "\", " ++ g1, g2)
    | none =>
      match cutLastParen (strIntercalate "\", " ps) with
      | some g2 => some (p, g2)
      | none => none

/-- Model of the anchored regex match on one line: returns the two
captured groups (directory, function name) on success. -/
def matchIncludeAsm (line : String) : Option (String × String) :=
  if strStartsWith line "INCLUDE_ASM(\"" then
    greedySplit (strSplitOn (strDrop line 13) "\", ")
  else none

/-- Errors raised by the C-file preprocessor. -/
inductive PErr where
  | invalidMacro (lineno : Nat) (line : String)
  | missingAsmFile (path : String) (lineno : Nat) (line : String)
  | asmScanError (e : AsmErr)
  deriving Repr, DecidableEq

/-- Filesystem lookup: `path.is_file()` plus reading the text lines. -/
def lookupFile (fs : List (String × List String)) (path : String) : Option (List String) :=
  (fs.find? (fun p => p.1 == path)).map (fun p => p.2)

/-- The `<dir>/<function>.s` path, optionally under `asm_dir_pre`
(`mwccgap.py` 77-79). -/
def resolveAsmPath ( asm_dir_prefix : Option String) (dir func : String) : String :=
  match asm_dir_prefix with
  | none => dir ++ "/" ++ func ++ ".s"
  | some pre => pre ++ "/" ++ dir ++ "/" ++ func ++ ".s"

/-- Model of `Path.stem` for the paths built by `resolveAsmPath` (they
always end in `.s`): final component minus the suffix. -/
def pathStem (p : String) : String :=
  strDropRight ((strSplitOn p "/").getLastD "") 2

/-- The outer loop of `preprocess_c_file` (`mwccgap.py` 61-162):
rewrites the translation unit line by line, collecting output lines and
resolved assembly file paths. -/
def preprocessCLines (fs : List (String × List String)) ( asm_dir_prefix : Option String) :
    Nat → List String → List String → List String →
    Except PErr (List String × List String)
  | _, [], out_lines, asm_files => .ok (out_lines, asm_files)
  | i, raw :: rest, out_lines, asm_files =>
    let line := strRstrip raw
    if strStartsWith line INCLUDE_ASM then
      match matchIncludeAsm line with
      | none => .error (.invalidMacro i line)
      | some (dir, func) =>
        let asm_file := resolveAsmPath asm_dir_prefix dir func
        match lookupFile fs asm_file with
        | none => .error (.missingAsmFile asm_file i line)
        | some content =>
          match scanAsmFile content with
          | .error e => .error (.asmScanError e)
          | .ok (nops, entries) =>
            preprocessCLines fs asm_dir_prefix (i + 1) rest
              (out_lines ++ stubLines func nops entries) (asm_files ++ [asm_file])
    else
      preprocessCLines fs asm_dir_prefix (i + 1) rest (out_lines ++ [line]) asm_files

/-- `preprocess_c_file`: the rewritten lines and the ordered resolved
assembly paths, or the first error. -/
def preprocess_c_file (fs : List (String × List String)) ( asm_dir_prefix : Option String)
    (lines : List String) : Except PErr (List String × List String) :=
  preprocessCLines fs asm_dir_prefix 0 lines [] []

/-! ## ELF object model

The `elf` module of the repository is not among the sources; the
structures below model exactly the data `process_c_file` manipulates,
and each operation marked `Modelled from the spec` follows the contract
in the specification (section 4.1). Section payloads are byte lists.

Section names: a Text section reports the empty string as its name
(this is what the positional read-only-data scan in `process_c_file`
relies on: the comment at lines 313-314 identifies another text section
by an empty name), a read-only-data section reports `.rodata`. -/

/-- An ELF symbol: name, name offset, binding class (local = 0), and
defining-section reference. -/
structure Symbol where
  name : String
  st_name : Nat
  bind : Nat
  st_shndx : Int
  deriving Repr, DecidableEq

/-- One relocation entry: target byte offset, symbol-table index,
relocation type (opaque). -/
structure Relocation where
  offset : Nat
  symbol_index : Nat
  reloc_type : Nat
  deriving Repr, DecidableEq

/-- A relocation record (section): header name offset, linked symbol
table, target-section index, and the relocation entries. `sh_info` is
an `Int` because `process_c_file` assigns it `rodata_section_index`,
which is `-1` when no read-only-data section was located. -/
structure RelocationRecord where
  sh_name : Nat
  sh_link : Nat
  sh_info : Int
  relocations : List Relocation
  deriving Repr, DecidableEq

/-- Sections, typed by purpose as in the spec's data model. -/
inductive ElfSection where
  | text (function_name : String) (data : List Nat)
  | rodata (data : List Nat)
  | reloc (name : String) (record : RelocationRecord)
  | other (name : String)
  deriving Repr, DecidableEq

/-- Modelled from the spec: the name the `elf` module reports for a
section. Text sections report the empty name (the positional scan of
`process_c_file` line 313 detects the next text section this way);
read-only-data sections report `.rodata`. -/
def ElfSection.name : ElfSection → String
  | .text _ _ => ""
  | .rodata _ => ".rodata"
  | .reloc n _ => n
  | .other n => n

/-- The symbol table: symbols in table order, plus `sh_info`, the index
of the first non-local symbol (ELF local/global boundary). -/
structure Symtab where
  symbols : List Symbol
  sh_info : Nat
  deriving Repr, DecidableEq

/-- The mutable ELF object: ordered sections, symbol table, the section
index of the symbol table, and the section-header string table. -/
structure Elf where
  sections : List ElfSection
  symtab : Symtab
  symtab_index : Nat
  shstrtab : String
  deriving Repr, DecidableEq

/-- `get_functions()`: the text sections in order, as
(function name, payload) pairs. -/
def Elf.get_functions (e : Elf) : List (String × List Nat) :=
  e.sections.filterMap (fun s => match s with
    | .text fn d => some (fn, d)
    | _ => none)

/-- `rodata_sections`: the read-only-data payloads in order. -/
def Elf.rodata_sections (e : Elf) : List (List Nat) :=
  e.sections.filterMap (fun s => match s with
    | .rodata d => some d
    | _ => none)

/-- `get_relocations()`: the relocation records in order. -/
def Elf.get_relocations (e : Elf) : List RelocationRecord :=
  e.sections.filterMap (fun s => match s with
    | .reloc _ r => some r
    | _ => none)

/-- Modelled from the spec: `AddSectionNameString` appends the name to
the section-header string table and returns its offset. -/
def Elf.add_sh_symbol (e : Elf) (name : String) : Nat × Elf :=
  (e.shstrtab.data.length, { e with shstrtab := e.shstrtab ++ name ++ "\x00" })

/-- Shift a relocation entry whose symbol index is at or past the
boundary. -/
def bumpRelocation (boundary cnt : Nat) (r : Relocation) : Relocation :=
  if boundary ≤ r.symbol_index then { r with symbol_index := r.symbol_index + cnt } else r

/-- Shift by one every relocation entry of a relocation section whose
symbol index is at or past the boundary; applied to every section when
a local symbol is inserted at the boundary. -/
def bumpSectionAtBoundary (boundary : Nat) : ElfSection → ElfSection
  | .reloc n r => .reloc n { r with relocations := r.relocations.map (bumpRelocation boundary 1) }
  | s => s

/-- Modelled from the spec: `AddSymbol(symbol, force)`. Without `force`,
a symbol with the same name is reused (its existing index returned).
Otherwise a local symbol (bind = 0) is inserted immediately before the
local/global boundary, the boundary advances, and every existing
relocation symbol index at or past the old boundary is incremented; a
global symbol is appended at the end. -/
def Elf.add_symbol (e : Elf) (s : Symbol) (force : Bool) : Nat × Elf :=
  match (if force then none else e.symtab.symbols.findIdx? (fun t => t.name == s.name)) with
  | some i => (i, e)
  | none =>
    if s.bind = 0 then
      (e.symtab.sh_info,
       { e with
         symtab := { symbols := e.symtab.symbols.take e.symtab.sh_info ++
                       s :: e.symtab.symbols.drop e.symtab.sh_info,
                     sh_info := e.symtab.sh_info + 1 },
         sections := e.sections.map (bumpSectionAtBoundary e.symtab.sh_info) })
    else
      (e.symtab.symbols.length,
       { e with symtab := { symbols := e.symtab.symbols ++ [s], sh_info := e.symtab.sh_info } })

/-- Modelled from the spec: `AddSection` appends a new section at the
next section index. -/
def Elf.add_section (e : Elf) (s : ElfSection) : Elf :=
  { e with sections := e.sections ++ [s] }

/-! ## The splicing pipeline (`process_c_file`) -/

/-- The pipeline model after a successful precompile (the external
compiler is out of scope, so the precompiled object and its bytes are
inputs): rewrite the source, drop assembly files whose function the
compiler already emitted, and either short-circuit to the precompiled
bytes or hand over to the stub-compile-and-splice continuation
(`mwccgap.py` 238-251). The returned bytes are the bytes written to the
output file; an error means nothing is written. -/
def process_c_file_model (fs : List (String × List String)) ( asm_dir_prefix : Option String)
    (c_lines : List String) (precompiled : Elf) (obj_bytes : List Nat)
    (splice : List String → List String → Except PErr (List Nat)) : Except PErr (List Nat) :=
  match preprocess_c_file fs asm_dir_prefix c_lines with
  | .error e => .error e
  | .ok (out_lines, asm_files0) =>
    let c_functions := (precompiled.get_functions).map (fun p => p.1)
    let asm_files := asm_files0.filter (fun x => !(c_functions.contains (pathStem x)))
    if asm_files.isEmpty then .ok obj_bytes
    else splice out_lines asm_files

/-- Errors of the per-file splice: the asserts of `process_c_file`, the
Python `IndexError` on a bad symbol index, and the Python `NameError`
on the unminted `.rel.rodata` header name. -/
inductive SpliceErr where
  | unsupportedAsmShape
  | functionNotFound
  | expectedOneRodataSection
  | insufficientAssembly
  | tooManyRelocationRecords
  | relRodataNameUnbound
  | symbolIndexOutOfRange
  deriving Repr, DecidableEq

/-- The forward scan for a paired read-only-data section
(`mwccgap.py` 309-320): starting right after the text section, stop
with `-1` at the next text section (empty name), or return the index of
the first `.rodata` section. -/
def find_rodata_go : List ElfSection → Nat → Int
  | [], _ => -1
  | s :: rest, idx =>
    if s.name = "" then -1
    else if s.name = ".rodata" then (idx : Int)
    else find_rodata_go rest (idx + 1)

/-- `rodata_section_index` for a located text section. -/
def find_rodata_section_index (sections : List ElfSection) (text_section_index : Nat) : Int :=
  find_rodata_go (sections.drop (text_section_index + 1)) (text_section_index + 1)

/-- Whether a relocation entry's referenced symbol (in the assembled
object's symbol table) has local binding. -/
def relocIsLocal (asyms : List Symbol) (r : Relocation) : Bool :=
  match asyms[r.symbol_index]? with
  | some s => s.bind == 0
  | none => false

/-- Number of relocation entries across the records whose referenced
symbol is local. -/
def localEntryCount (asyms : List Symbol) : List RelocationRecord → Nat
  | [] => 0
  | r :: rest => r.relocations.countP (relocIsLocal asyms) + localEntryCount asyms rest

/-- Processing of the entries of one relocation record (`mwccgap.py`
364-376): resolve each entry's symbol in the assembled symbol table,
count local-bind symbols, carry the symbol into the compiled object
(`force` for the rodata record), re-point the entry's index, record the
symbol name, and for the rodata record re-point the symbol's section
reference to the text section. -/
def processEntries (e : Elf) (asyms : List Symbol) (is_rodata_rec : Bool) (text_idx : Nat) :
    List Relocation → Nat → List String →
    Except SpliceErr (Elf × List Symbol × List Relocation × Nat × List String)
  | [], cnt, rsyms => .ok (e, asyms, [], cnt, rsyms)
  | rel :: rest, cnt, rsyms =>
    match asyms[rel.symbol_index]? with
    | none => .error .symbolIndexOutOfRange
    | some symbol =>
      let cnt1 := if symbol.bind = 0 then cnt + 1 else cnt
      let symbol1 := if is_rodata_rec then { symbol with st_shndx := (text_idx : Int) } else symbol
      let r1 := Elf.add_symbol e symbol1 is_rodata_rec
      let asyms1 := if is_rodata_rec then asyms.set rel.symbol_index symbol1 else asyms
      match processEntries r1.2 asyms1 is_rodata_rec text_idx rest cnt1 (rsyms ++ [symbol.name]) with
      | .error er => .error er
      | .ok out2 =>
        .ok (out2.1, out2.2.1, { rel with symbol_index := r1.1 } :: out2.2.2.1,
          out2.2.2.2.1, out2.2.2.2.2)

/-- Header-field assignment for the record at position `i`
(`mwccgap.py` 356-362): the first record becomes the text relocation,
the second the read-only-data relocation; referencing the unminted
`.rel.rodata` name is the `NameError` failure. -/
def recordHeaderFor (record : RelocationRecord) (i : Nat) (text_idx : Nat) (rodata_idx : Int)
    (rel_text_sh_name : Nat) (rel_rodata_sh_name : Option Nat) :
    Except SpliceErr (Nat × Int × String) :=
  if i = 0 then .ok (rel_text_sh_name, (text_idx : Int), ".rel.text")
  else if i = 1 then
    (match rel_rodata_sh_name with
     | some n => .ok (n, rodata_idx, ".rel.rodata")
     | none => .error .relRodataNameUnbound)
  else .ok (record.sh_name, record.sh_info, "")

/-- The loop over the assembled object's relocation records
(`mwccgap.py` 355-378): set header fields, process the entries, append
the record to the compiled object. -/
def processRecords (text_idx : Nat) (rodata_idx : Int) (rel_text_sh_name : Nat)
    (rel_rodata_sh_name : Option Nat) :
    Elf → List Symbol → List RelocationRecord → Nat → Nat → List String →
    Except SpliceErr (Elf × List Symbol × Nat × List String)
  | e, asyms, [], _, cnt, rsyms => .ok (e, asyms, cnt, rsyms)
  | e, asyms, record :: rest, i, cnt, rsyms =>
    match recordHeaderFor record i text_idx rodata_idx rel_text_sh_name rel_rodata_sh_name with
    | .error er => .error er
    | .ok trip =>
      match processEntries e asyms (i == 1) text_idx record.relocations cnt rsyms with
      | .error er => .error er
      | .ok out2 =>
        processRecords text_idx rodata_idx rel_text_sh_name rel_rodata_sh_name
          (out2.1.add_section (.reloc trip.2.2
            { sh_name := trip.1, sh_link := e.symtab_index, sh_info := trip.2.1,
              relocations := out2.2.2.1 }))
          out2.2.1 rest (i + 1) out2.2.2.2.1 out2.2.2.2.2

/-- One section of the local-insertion fix-up pass (`mwccgap.py`
380-390): records targeting the rodata section index are skipped, every
other record has entries at or past the boundary shifted by the count. -/
def fixupSection (rodata_idx : Int) (initial cnt : Nat) : ElfSection → ElfSection
  | .reloc n r =>
    .reloc n (if r.sh_info = rodata_idx then r
              else { r with relocations := r.relocations.map (bumpRelocation initial cnt) })
  | s => s

/-- The fix-up pass, guarded by `local_syms_inserted > 0` as in the
source. -/
def applyLocalFixup (e : Elf) (rodata_idx : Int) (initial cnt : Nat) : Elf :=
  if 0 < cnt then { e with sections := e.sections.map (fixupSection rodata_idx initial cnt) }
  else e

/-- The whole relocation carry-over for one assembled file
(`mwccgap.py` 344-390): the record-count assert, the record loop, and
the local fix-up pass. Returns the updated compiled object, the updated
assembled symbol list, `local_syms_inserted`, and `reloc_symbols`. -/
def spliceRelocationRecords (e : Elf) (asyms : List Symbol) (records : List RelocationRecord)
    (text_idx : Nat) (rodata_idx : Int) (rel_text_sh_name : Nat)
    (rel_rodata_sh_name : Option Nat) :
    Except SpliceErr (Elf × List Symbol × Nat × List String) :=
  if records.length ≥ 3 then .error .tooManyRelocationRecords
  else
    match processRecords text_idx rodata_idx rel_text_sh_name rel_rodata_sh_name
        e asyms records 0 0 [] with
    | .error er => .error er
    | .ok out =>
      .ok (applyLocalFixup out.1 rodata_idx e.symtab.sh_info out.2.2.1, out.2.1,
        out.2.2.1, out.2.2.2)

/-- In-place update of the section at one index. -/
def listModify (f : ElfSection → ElfSection) : Nat → List ElfSection → List ElfSection
  | _, [] => []
  | 0, s :: rest => f s :: rest
  | n + 1, s :: rest => s :: listModify f n rest

/-- Replace a section's payload (the `.data` assignments of
`process_c_file` lines 338 and 341). -/
def setSectionData (d : List Nat) : ElfSection → ElfSection
  | .text fn _ => .text fn d
  | .rodata _ => .rodata d
  | s => s

/-- The trailing carry-over of assembled symbols not referenced by any
relocation (`mwccgap.py` 392-397). -/
def trailingSymbols (text_idx : Nat) (rsyms : List String) : Elf → List Symbol → Elf
  | e, [] => e
  | e, s :: rest =>
    if s.st_name = 0 then trailingSymbols text_idx rsyms e rest
    else if rsyms.contains s.name then trailingSymbols text_idx rsyms e rest
    else trailingSymbols text_idx rsyms
      (Elf.add_symbol e { s with st_shndx := (text_idx : Int) } false).2 rest

/-- The placeholder text section for a function: its name is the
prefixed placeholder name (`mwccgap.py` 300-305). -/
def isPlaceholderFor (function : String) : ElfSection → Bool
  | .text fn _ => fn == FUNCTION_PREFIX ++ function
  | _ => false

/-- The per-assembly-file splice (`mwccgap.py` 292-397): shape check,
placeholder lookup, positional rodata pairing, length reconciliation
and payload replacement, `.rel.rodata` minting, relocation carry-over,
trailing symbol carry-over. The `rel_rodata_sh_name` binding is a
function-scoped Python variable assigned only inside `if has_rodata:`
(line 342), so it persists across the per-file loop: it enters as the
state left by earlier files of the translation unit (unbound at the
first iteration) and is returned, re-minted only when this file pairs a
rodata section. -/
def splice_one (compiled : Elf) (assembled : Elf) (function : String)
    (rel_text_sh_name : Nat) (rel_rodata_sh_name : Option Nat) :
    Except SpliceErr (Elf × Option Nat) :=
  match assembled.get_functions with
  | [af] =>
    (match compiled.sections.findIdx? (isPlaceholderFor function) with
     | none => .error .functionNotFound
     | some text_idx =>
       match compiled.sections[text_idx]? with
       | some (.text _ pdata) =>
         let rodata_idx := find_rodata_section_index compiled.sections text_idx
         let has_rodata : Bool := decide (rodata_idx > -1)
         if has_rodata = true ∧ assembled.rodata_sections.length ≠ 1 then
           .error .expectedOneRodataSection
         else if af.2.length < pdata.length then .error .insufficientAssembly
         else
           let c1 : Elf := { compiled with
             sections := listModify (setSectionData (af.2.take pdata.length))
               text_idx compiled.sections }
           let step2 : Option Nat × Elf :=
             if has_rodata then
               let c2 : Elf := { c1 with
                 sections := listModify (setSectionData (assembled.rodata_sections.getD 0 []))
                   rodata_idx.toNat c1.sections }
               let r3 := c2.add_sh_symbol ".rel.rodata"
               (some r3.1, r3.2)
             else (rel_rodata_sh_name, c1)
           match spliceRelocationRecords step2.2 assembled.symtab.symbols
               assembled.get_relocations text_idx rodata_idx rel_text_sh_name step2.1 with
           | .error er => .error er
           | .ok out => .ok (trailingSymbols text_idx out.2.2.2 out.1 out.2.1, step2.1)
       | _ => .error .functionNotFound)
  | _ => .error .unsupportedAsmShape

/-- The per-file loop of `process_c_file` (`mwccgap.py` 291-397): the
`.rel.text` header name is minted once before the loop (line 284); the
compiled object and the function-scoped `rel_rodata_sh_name` binding
thread through the iterations, the latter starting unbound. -/
def splice_files (rel_text_sh_name : Nat) :
    Elf → Option Nat → List (Elf × String) → Except SpliceErr Elf
  | compiled, _, [] => .ok compiled
  | compiled, rrn, (assembled, function) :: rest =>
    match splice_one compiled assembled function rel_text_sh_name rrn with
    | .error er => .error er
    | .ok out => splice_files rel_text_sh_name out.1 out.2 rest

/-- The header data of a relocation section: its section name and the
record's `sh_name`, `sh_link`, `sh_info`. -/
def relocHeader : ElfSection → Option (String × Nat × Nat × Int)
  | .reloc n r => some (n, r.sh_name, r.sh_link, r.sh_info)
  | _ => none

/-- The relocation-record headers visible in an object, in section
order. -/
def relocHeaders (e : Elf) : List (String × Nat × Nat × Int) :=
  e.sections.filterMap relocHeader

/-! ## Concrete objects used by witnesses and counterexamples -/

/-- A concrete assembly file used to witness C3: four real instruction
lines among banner, directives, labels and blanks. -/
def c3LinesW : List String :=
  ["/* Generated by spimdisasm version 1.11.1 */",
   ".include \"macro.inc\"",
   "",
   ".section .text",
   "glabel my_func",
   "  lui   $a0, %hi(D_800)",
   ".L80001:",
   "  addiu $a0, $a0, %lo(D_800)",
   "  jr    $ra",
   "   nop",
   ".size my_func, . - my_func"]

/-- Scan state used to witness C4: inside read-only-data with one open
symbol of 4 bytes so far. -/
def c4StW : ScanState := ⟨true, [("D_800", 4)], some "D_800", 0⟩

/-- Filesystem, translation unit and precompiled object used to witness
C6: the single macro references a function the compiler already emits. -/
def c6FsW : List (String × List String) := [("asm/foo.s", ["jr $ra"])]

def c6LinesW : List String := ["int x;", "INCLUDE_ASM(\"asm\", foo)"]

def c6ElfW : Elf := ⟨[.text "foo" [1, 2, 3, 4]], ⟨[], 0⟩, 0, ""⟩

/-- The successful preprocess result on the C6 witness input. -/
def c6PreW : List String × List String :=
  match preprocess_c_file c6FsW none c6LinesW with
  | .ok o => o
  | .error _ => ([], [])

/-- Sections used to witness C5: a text section, an unrelated section,
then the paired rodata section. -/
def c5SectionsW : List ElfSection := [.text "f" [0], .other ".bss", .rodata [1, 2]]

/-- Compiled and assembled objects used to witness C1: a 4-byte
placeholder and 8 bytes of assembled code. -/
def c1CompiledW : Elf :=
  ⟨[.text "mwccgap_fn1" [9, 9, 9, 9]], ⟨[⟨"", 0, 0, 0⟩], 1⟩, 2, "x"⟩

def c1AssembledW : Elf :=
  ⟨[.text "fn1" [1, 2, 3, 4, 5, 6, 7, 8]], ⟨[⟨"", 0, 0, 0⟩], 1⟩, 1, "y"⟩

/-- The successful splice result on the C1 witness input (starting
from the unbound `.rel.rodata` state). -/
def c1OutW : Elf × Option Nat :=
  match splice_one c1CompiledW c1AssembledW "fn1" 5 none with
  | .ok o => o
  | .error _ => (⟨[], ⟨[], 0⟩, 0, ""⟩, none)

/-- Objects used to witness C7: one empty relocation record carried
over into a compiled object with no pre-existing relocations. -/
def c7ElfW : Elf := ⟨[.text "t" [0]], ⟨[⟨"", 0, 0, 0⟩], 1⟩, 3, ""⟩

def c7RecordW : RelocationRecord := ⟨0, 0, 0, []⟩

/-- The successful carry-over result on the C7 witness input. -/
def c7OutW : Elf × List Symbol × Nat × List String :=
  match spliceRelocationRecords c7ElfW [] [c7RecordW] 0 (-1) 11 none with
  | .ok o => o
  | .error _ => (⟨[], ⟨[], 0⟩, 0, ""⟩, [], 0, [])

/-- Objects used to witness C10: the assembled object contributes two
relocation records but the compiled object pairs no rodata section. -/
def c10CompiledW : Elf := ⟨[.text "mwccgap_fn2" [7, 7, 7, 7]], ⟨[⟨"", 0, 0, 0⟩], 1⟩, 2, ""⟩

def c10AssembledW : Elf :=
  ⟨[.text "fn2" [1, 2, 3, 4], .reloc ".rel.text" ⟨0, 0, 0, []⟩,
    .reloc ".rel.rodata" ⟨0, 0, 0, []⟩], ⟨[⟨"", 0, 0, 0⟩], 1⟩, 1, ""⟩

/-- Compiled unit for the stale-binding counterexample: placeholders
for two functions, a rodata section paired with the first. -/
def c10CompiledX : Elf :=
  ⟨[.text "mwccgap_A" [1, 2, 3, 4], .rodata [0, 0, 0, 0], .text "mwccgap_B" [5, 6, 7, 8]],
   ⟨[⟨"", 0, 0, 0⟩], 1⟩, 4, ""⟩

/-- First assembled file: pairs the rodata section, so it mints the
`.rel.rodata` header name. -/
def c10Asm1X : Elf :=
  ⟨[.text "A" [9, 9, 9, 9], .rodata [1, 1, 1, 1]], ⟨[⟨"", 0, 0, 0⟩], 1⟩, 1, ""⟩

/-- Second assembled file: two relocation records, but its function
pairs no rodata section in the compiled unit. -/
def c10Asm2X : Elf :=
  ⟨[.text "B" [2, 2, 2, 2], .reloc ".rel.text" ⟨0, 0, 0, []⟩,
    .reloc ".rel.rodata" ⟨0, 0, 0, []⟩], ⟨[⟨"", 0, 0, 0⟩], 1⟩, 1, ""⟩

/-- The splice result and binding state after the first file. -/
def c10MidX : Elf × Option Nat :=
  match splice_one c10CompiledX c10Asm1X "A" 7 none with
  | .ok o => o
  | .error _ => (c10CompiledX, none)

/-- Compiled object used by the C2 counterexample and witness: one
placeholder text section, a rodata section at index 1, and a
pre-existing relocation record targeting that rodata section. -/
def c2ElfX : Elf :=
  ⟨[.text "mwccgap_foo" [1, 2, 3, 4], .rodata [0, 0, 0, 0],
    .reloc ".rel.pre" ⟨3, 2, 1, [⟨0, 1, 2⟩]⟩],
   ⟨[⟨"", 0, 0, 0⟩, ⟨"g", 9, 1, 0⟩], 1⟩, 5, "x"⟩

/-- Assembled symbol table for the C2 inputs: the null symbol and one
local symbol. -/
def c2AsymsX : List Symbol := [⟨"", 0, 0, 0⟩, ⟨"L1", 5, 0, 2⟩]

/-- One text relocation record whose two entries both reference the
same local symbol. -/
def c2RecordsX : List RelocationRecord := [⟨7, 0, 5, [⟨0, 1, 4⟩, ⟨8, 1, 4⟩]⟩]

/-- The successful carry-over result on the C2 inputs. -/
def c2OutX : Elf × List Symbol × Nat × List String :=
  match spliceRelocationRecords c2ElfX c2AsymsX c2RecordsX 0 1 40 none with
  | .ok o => o
  | .error _ => (⟨[], ⟨[], 0⟩, 0, ""⟩, [], 0, [])

/-! ## Theorems -/

set_option maxHeartbeats 1600000 in
theorem processAsmLine_ok_spec (st st1 : ScanState) (raw : String)
    (h : processAsmLine st raw = .ok st1) :
    st1.in_rodata = slotFlagStep st.in_rodata raw ∧
    st1.nops_needed = st.nops_needed + slotInc st.in_rodata raw := by
  simp only [processAsmLine] at h
  repeat' split at h
  all_goals first
    | ((injection h with h
        subst h
        simp_all [slotFlagStep, slotInc, sectionFlagStep, skippedOutsideRodata]) <;>
       (split <;> simp_all))
    | cases h

theorem countSlots_cons (ro : Bool) (raw : String) (rest : List String) :
    countSlots ro (raw :: rest) = slotInc ro raw + countSlots (slotFlagStep ro raw) rest := rfl

theorem processAsmLines_nops (lines : List String) : ∀ st st1 : ScanState,
    processAsmLines st lines = .ok st1 →
    st1.nops_needed = st.nops_needed + countSlots st.in_rodata lines := by
  induction lines with
  | nil =>
    intro st st1 h
    simp only [processAsmLines, Except.ok.injEq] at h
    simp [← h, countSlots]
  | cons l rest ih =>
    intro st st1 h
    unfold processAsmLines at h
    cases hline : processAsmLine st l with
    | error e => rw [hline] at h; exact absurd h (by simp)
    | ok stm =>
      rw [hline] at h
      obtain ⟨hflag, hnops⟩ := processAsmLine_ok_spec st stm l hline
      have hrest := ih stm st1 h
      rw [hrest, hnops, hflag, countSlots_cons]
      omega


/-- C3: a successful scan of an assembly file yields exactly the
spec-side instruction-slot count (non-empty lines outside
read-only-data that are not section directives and not skipped forms),
and the synthesized placeholder body holds exactly that many `nop`
lines. -/
theorem c3_placeholder_nop_count (lines : List String) (n : Nat)
    (entries : List (String × Nat)) (f : String)
    (h : scanAsmFile lines = .ok (n, entries)) :
    n = countInstructionSlots lines ∧
    stubLines f n entries =
      ("asm void " ++ FUNCTION_PREFIX ++ f ++ "() \x7b") ::
        (List.replicate n "nop" ++ ("\x7d" :: rodataStubLines entries)) := by
  constructor
  · unfold scanAsmFile at h
    cases hs : processAsmLines initScanState lines with
    | error e => rw [hs] at h; cases h
    | ok st =>
      rw [hs] at h
      injection h with h
      have hn := processAsmLines_nops lines initScanState st hs
      have h1 : st.nops_needed = n := congrArg Prod.fst h
      rw [← h1, hn]
      simp [initScanState, countInstructionSlots]
  · rfl

theorem c3_placeholder_nop_count_witness :
    countInstructionSlots c3LinesW = 4 ∧
    stubLines "my_func" 4 [] =
      ("asm void " ++ FUNCTION_PREFIX ++ "my_func" ++ "() \x7b") ::
        (List.replicate 4 "nop" ++ ("\x7d" :: rodataStubLines [])) := by
  have h := c3_placeholder_nop_count c3LinesW 4 [] "my_func" (by rfl)
  exact ⟨h.1.symm, h.2⟩

/-- Lookup after the in-place-overwrite branch of `dictSet`. -/
theorem dictLookup_map_set (l : List (String × Nat)) (k : String) (v : Nat)
    (h : l.any (fun p => p.1 == k) = true) :
    dictLookup (l.map (fun p => if p.1 == k then (p.1, v) else p)) k = some v := by
  induction l with
  | nil => simp at h
  | cons p rest ih =>
    simp only [List.any_cons, Bool.or_eq_true] at h
    by_cases hp : p.1 == k
    · simp [dictLookup, List.find?, hp]
    · have hr : rest.any (fun p => p.1 == k) = true := by
        rcases h with h | h
        · exact absurd h hp
        · exact h
      simpa [dictLookup, List.find?, hp] using ih hr

/-- Lookup after the append branch of `dictSet` (key not yet present). -/
theorem dictLookup_append_new (l : List (String × Nat)) (k : String) (v : Nat)
    (h : l.any (fun p => p.1 == k) = false) :
    dictLookup (l ++ [(k, v)]) k = some v := by
  induction l with
  | nil => simp [dictLookup, List.find?]
  | cons p rest ih =>
    simp only [List.any_cons, Bool.or_eq_false_iff] at h
    simpa [dictLookup, List.find?, h.1] using ih h.2

/-- A `dictSet` always leaves the key bound to the assigned value. -/
theorem dictLookup_dictSet (l : List (String × Nat)) (k : String) (v : Nat) :
    dictLookup (dictSet l k v) k = some v := by
  cases hb : l.any (fun p => p.1 == k) with
  | true =>
    have h1 := dictLookup_map_set l k v hb
    simpa [dictSet, hb] using h1
  | false =>
    have h1 := dictLookup_append_new l k v hb
    simpa [dictSet, hb] using h1

/-- A `dictAdd` increments the value bound to the key. -/
theorem dictLookup_dictAdd (l : List (String × Nat)) (k : String) (d0 v : Nat)
    (h : dictLookup l k = some v) :
    dictLookup (dictAdd l k d0) k = some (v + d0) := by
  induction l with
  | nil => simp [dictLookup] at h
  | cons p rest ih =>
    by_cases hp : p.1 == k
    · simp [dictLookup, List.find?, hp] at h
      simp [dictAdd, dictLookup, List.find?, hp]
      omega
    · simp only [dictLookup, List.find?, hp] at h
      have h2 : dictLookup rest k = some v := by
        simpa [dictLookup] using h
      simpa [dictAdd, dictLookup, List.find?, hp] using ih h2


/-- C4: inside a read-only-data block, alignment and size directives are
skipped, a label line opens a new named data symbol bound to byte count
0, a line containing the word-emission directive adds 4 bytes to the
currently-open symbol, any other line is an error; and the rewriter
emits, for each symbol of final size `S`, a placeholder array of
exactly `S / 4` zero elements. -/
theorem c4_rodata_block_rules (st : ScanState) (raw l : String) (hl : strStrip raw = l)
    (hro : st.in_rodata = true) (hne : ¬ l = "")
    (hns : strStartsWith l ".section" = false) :
    (strStartsWith l ".align" = true → processAsmLine st raw = .ok st) ∧
    (strStartsWith l ".align" = false → strStartsWith l ".size" = true →
      processAsmLine st raw = .ok st) ∧
    (∀ g sym, strStartsWith l ".align" = false → strStartsWith l ".size" = false →
      strStartsWith l "glabel" = true → strSplitOn l " " = [g, sym] →
      processAsmLine st raw =
        .ok { st with rodata_entries := dictSet st.rodata_entries sym 0,
                      rodata_symbol := some sym } ∧
      dictLookup (dictSet st.rodata_entries sym 0) sym = some 0) ∧
    (∀ sym, strStartsWith l ".align" = false → strStartsWith l ".size" = false →
      strStartsWith l "glabel" = false → (strSplitOn l " .word ").length > 1 →
      st.rodata_symbol = some sym →
      processAsmLine st raw =
        .ok { st with rodata_entries := dictAdd st.rodata_entries sym 4 } ∧
      ∀ v, dictLookup st.rodata_entries sym = some v →
        dictLookup (dictAdd st.rodata_entries sym 4) sym = some (v + 4)) ∧
    (strStartsWith l ".align" = false → strStartsWith l ".size" = false →
      strStartsWith l "glabel" = false → ¬ ((strSplitOn l " .word ").length > 1) →
      processAsmLine st raw = .error (.unexpectedRodataEntry l)) ∧
    rodataStubLines st.rodata_entries =
      st.rodata_entries.map (fun p => rodataStubLine p.1 (p.2 / 4)) := by
  refine ⟨?_, ?_, ?_, ?_, ?_, rfl⟩
  · intro h1
    simp [processAsmLine, hl, hro, hne, hns, h1]
  · intro h1 h2
    simp [processAsmLine, hl, hro, hne, hns, h1, h2]
  · intro g sym h1 h2 h3 h4
    refine ⟨?_, dictLookup_dictSet _ _ _⟩
    simp [processAsmLine, hl, hro, hne, hns, h1, h2, h3, h4]
  · intro sym h1 h2 h3 h4 h5
    refine ⟨?_, fun v hv => dictLookup_dictAdd _ _ _ _ hv⟩
    simp [processAsmLine, hl, hro, hne, hns, h1, h2, h3, h4, h5]
  · intro h1 h2 h3 h4
    simp [processAsmLine, hl, hro, hne, hns, h1, h2, h3, h4]

theorem c4_rodata_block_rules_witness :
    processAsmLine c4StW "jtbl: .word 5" = .ok ⟨true, [("D_800", 8)], some "D_800", 0⟩ ∧
    dictLookup [("D_800", 8)] "D_800" = some 8 := by
  have h := c4_rodata_block_rules c4StW "jtbl: .word 5" "jtbl: .word 5" rfl rfl
    (by decide) (by decide)
  have h4 := h.2.2.2.1 "D_800" (by decide) (by decide) (by decide) (by decide) rfl
  refine ⟨h4.1, ?_⟩
  exact h4.2 4 (by decide)


/-- A macro line whose assembly file is missing makes the rewrite loop
fail at that line with the missing-file error. -/
theorem preprocess_head_missing (fs : List (String × List String)) (pre : Option String)
    (i : Nat) (raw : String) (rest out files : List String) (line dir func : String)
    (hline : strRstrip raw = line)
    (hstart : strStartsWith line INCLUDE_ASM = true)
    (hmatch : matchIncludeAsm line = some (dir, func))
    (hmiss : lookupFile fs (resolveAsmPath pre dir func) = none) :
    preprocessCLines fs pre i (raw :: rest) out files =
      .error (.missingAsmFile (resolveAsmPath pre dir func) i line) := by
  unfold preprocessCLines
  simp [hline, hstart, hmatch, hmiss]

/-- If any line of the input is a well-formed macro referencing a
missing assembly file, the rewrite loop cannot succeed. -/
theorem preprocess_no_ok (fs : List (String × List String)) (pre : Option String) :
    ∀ (lines : List String) (i : Nat) (out files : List String),
      (∃ raw ∈ lines, ∃ dir func,
        strStartsWith (strRstrip raw) INCLUDE_ASM = true ∧
        matchIncludeAsm (strRstrip raw) = some (dir, func) ∧
        lookupFile fs (resolveAsmPath pre dir func) = none) →
      ∀ res, preprocessCLines fs pre i lines out files ≠ .ok res := by
  intro lines
  induction lines with
  | nil =>
    rintro i out files ⟨raw, hmem, _⟩ res
    simp at hmem
  | cons raw0 rest ih =>
    rintro i out files ⟨raw, hmem, dir, func, hstart, hmatch, hmiss⟩ res hok
    unfold preprocessCLines at hok
    by_cases h0 : strStartsWith (strRstrip raw0) INCLUDE_ASM = true
    · cases hm : matchIncludeAsm (strRstrip raw0) with
      | none => simp [h0, hm] at hok
      | some df =>
        obtain ⟨d0, f0⟩ := df
        cases hlk : lookupFile fs (resolveAsmPath pre d0 f0) with
        | none => simp [h0, hm, hlk] at hok
        | some content =>
          cases hsc : scanAsmFile content with
          | error e => simp [h0, hm, hlk, hsc] at hok
          | ok p =>
            obtain ⟨nops, entries⟩ := p
            simp only [h0, if_true, hm, hlk, hsc] at hok
            rcases List.mem_cons.mp hmem with hmem | hmem
            · subst hmem
              rw [hmatch] at hm
              injection hm with hm
              injection hm with hm1 hm2
              subst hm1
              subst hm2
              rw [hmiss] at hlk
              cases hlk
            · exact ih (i + 1) _ _ ⟨raw, hmem, dir, func, hstart, hmatch, hmiss⟩ res hok
    · simp only [h0] at hok
      rcases List.mem_cons.mp hmem with hmem | hmem
      · subst hmem
        rw [hstart] at h0
        simp at h0
      · simp only [Bool.false_eq_true, if_false] at hok
        exact ih (i + 1) _ _ ⟨raw, hmem, dir, func, hstart, hmatch, hmiss⟩ res hok

/-- A failing rewrite makes the whole pipeline fail: nothing is
written. -/
theorem process_no_ok_of_preprocess (fs : List (String × List String)) (pre : Option String)
    (c_lines : List String) (precompiled : Elf) (obj_bytes : List Nat)
    (splice : List String → List String → Except PErr (List Nat))
    (h : ∀ r, preprocess_c_file fs pre c_lines ≠ .ok r) :
    ∀ res, process_c_file_model fs pre c_lines precompiled obj_bytes splice ≠ .ok res := by
  intro res hok
  unfold process_c_file_model at hok
  cases hp : preprocess_c_file fs pre c_lines with
  | error e => rw [hp] at hok; cases hok
  | ok o => exact h o hp

/-- C8: a well-formed macro referencing an assembly file absent from the
filesystem (after optional prefixing) fails with an error naming the
resolved file and the line index, and the pipeline writes no output
bytes whatever surrounds the offending line. -/
theorem c8_missing_asm_file (fs : List (String × List String)) (pre : Option String)
    (i : Nat) (raw : String) (rest out files : List String) (line dir func : String)
    (hline : strRstrip raw = line)
    (hstart : strStartsWith line INCLUDE_ASM = true)
    (hmatch : matchIncludeAsm line = some (dir, func))
    (hmiss : lookupFile fs (resolveAsmPath pre dir func) = none) :
    preprocessCLines fs pre i (raw :: rest) out files =
      .error (.missingAsmFile (resolveAsmPath pre dir func) i line) ∧
    ∀ (front : List String) (precompiled : Elf) (obj_bytes : List Nat)
      (splice : List String → List String → Except PErr (List Nat)) (res : List Nat),
      process_c_file_model fs pre (front ++ raw :: rest) precompiled obj_bytes splice ≠
        .ok res := by
  refine ⟨preprocess_head_missing fs pre i raw rest out files line dir func
    hline hstart hmatch hmiss, ?_⟩
  intro front precompiled obj_bytes splice res
  apply process_no_ok_of_preprocess
  intro r
  apply preprocess_no_ok
  exact ⟨raw, by simp, dir, func, by rw [hline]; exact hstart,
    by rw [hline]; exact hmatch, hmiss⟩

theorem c8_missing_asm_file_witness :
    preprocessCLines [] none 0 ["INCLUDE_ASM(\"asm\", bar)"] [] [] =
      .error (.missingAsmFile "asm/bar.s" 0 "INCLUDE_ASM(\"asm\", bar)") ∧
    ∀ res : List Nat,
      process_c_file_model [] none ["INCLUDE_ASM(\"asm\", bar)"] ⟨[], ⟨[], 0⟩, 0, ""⟩ [7]
        (fun _ _ => .ok [1]) ≠ .ok res := by
  have h := c8_missing_asm_file [] none 0 "INCLUDE_ASM(\"asm\", bar)" [] [] []
    "INCLUDE_ASM(\"asm\", bar)" "asm" "bar" rfl (by decide) (by rfl) rfl
  exact ⟨h.1, fun res => h.2 [] ⟨[], ⟨[], 0⟩, 0, ""⟩ [7] (fun _ _ => .ok [1]) res⟩


/-- Pushing the missing-file error through a prefix of non-macro lines:
the loop fails at index `i + front.length` with the same error. -/
theorem preprocess_front_missing (fs : List (String × List String)) (pre : Option String)
    (raw : String) (rest : List String) (line dir func : String)
    (hline : strRstrip raw = line)
    (hstart : strStartsWith line INCLUDE_ASM = true)
    (hmatch : matchIncludeAsm line = some (dir, func))
    (hmiss : lookupFile fs (resolveAsmPath pre dir func) = none) :
    ∀ (front : List String) (i : Nat) (out files : List String),
      (∀ r ∈ front, strStartsWith (strRstrip r) INCLUDE_ASM = false) →
      preprocessCLines fs pre i (front ++ raw :: rest) out files =
        .error (.missingAsmFile (resolveAsmPath pre dir func) (i + front.length) line) := by
  intro front
  induction front with
  | nil =>
    intro i out files _
    simpa using preprocess_head_missing fs pre i raw rest out files line dir func
      hline hstart hmatch hmiss
  | cons r0 front ih =>
    intro i out files hf
    have h0 : strStartsWith (strRstrip r0) INCLUDE_ASM = false := hf r0 (by simp)
    rw [List.cons_append]
    unfold preprocessCLines
    simp only [h0, Bool.false_eq_true, if_false]
    rw [ih (i + 1) (out ++ [strRstrip r0]) files (fun r hr => hf r (by simp [hr]))]
    have harith : i + 1 + front.length = i + (r0 :: front).length := by
      simp [List.length_cons]
      omega
    rw [harith]

/-- C9 counterexample: on a translation unit whose single macro has no
matching assembly file, the pipeline returns an error (so no output
object is written), not a success carrying the precompiled bytes. -/
theorem c9_counterexample :
    process_c_file_model [] none ["INCLUDE_ASM(\"asm\", baz)"] ⟨[], ⟨[], 0⟩, 0, ""⟩ [7]
        (fun _ _ => .ok [1]) =
      .error (.missingAsmFile "asm/baz.s" 0 "INCLUDE_ASM(\"asm\", baz)") := by
  rfl

/-- C9 (amended): a function whose inclusion macro has no matching
assembly file is a fatal error naming the resolved file and its line
index, and the pipeline writes no output object at all. -/
theorem c9_missing_asm_is_fatal (fs : List (String × List String)) (pre : Option String)
    (front : List String) (raw : String) (rest : List String) (line dir func : String)
    (hline : strRstrip raw = line)
    (hstart : strStartsWith line INCLUDE_ASM = true)
    (hmatch : matchIncludeAsm line = some (dir, func))
    (hmiss : lookupFile fs (resolveAsmPath pre dir func) = none)
    (hfront : ∀ r ∈ front, strStartsWith (strRstrip r) INCLUDE_ASM = false) :
    preprocess_c_file fs pre (front ++ raw :: rest) =
      .error (.missingAsmFile (resolveAsmPath pre dir func) front.length line) ∧
    ∀ (precompiled : Elf) (obj_bytes : List Nat)
      (splice : List String → List String → Except PErr (List Nat)) (res : List Nat),
      process_c_file_model fs pre (front ++ raw :: rest) precompiled obj_bytes splice ≠
        .ok res := by
  constructor
  · have h := preprocess_front_missing fs pre raw rest line dir func
      hline hstart hmatch hmiss front 0 [] [] hfront
    simpa [preprocess_c_file] using h
  · intro precompiled obj_bytes splice res
    apply process_no_ok_of_preprocess
    intro r
    apply preprocess_no_ok
    exact ⟨raw, by simp, dir, func, by rw [hline]; exact hstart,
      by rw [hline]; exact hmatch, hmiss⟩

theorem c9_missing_asm_is_fatal_witness :
    preprocess_c_file [] none ["int y;", "INCLUDE_ASM(\"asm\", baz)"] =
      .error (.missingAsmFile "asm/baz.s" 1 "INCLUDE_ASM(\"asm\", baz)") ∧
    process_c_file_model [] none ["int y;", "INCLUDE_ASM(\"asm\", baz)"] ⟨[], ⟨[], 0⟩, 0, ""⟩
      [7] (fun _ _ => .ok [1]) ≠ .ok [7] := by
  have h := c9_missing_asm_is_fatal [] none ["int y;"] "INCLUDE_ASM(\"asm\", baz)" []
    "INCLUDE_ASM(\"asm\", baz)" "asm" "baz" rfl (by decide) (by rfl) rfl (by decide)
  exact ⟨h.1, h.2 ⟨[], ⟨[], 0⟩, 0, ""⟩ [7] (fun _ _ => .ok [1]) [7]⟩

/-- C6: when every resolved assembly file names a function already
among the precompiled object's text sections (in particular when there
are no macros at all), the pipeline returns exactly the precompiled
object's bytes, independently of the stub-compile-and-splice
continuation. -/
theorem c6_short_circuit (fs : List (String × List String)) (pre : Option String)
    (c_lines out files : List String) (precompiled : Elf) (obj_bytes : List Nat)
    (hpre : preprocess_c_file fs pre c_lines = .ok (out, files))
    (hall : ∀ p ∈ files,
      ((precompiled.get_functions).map (fun q => q.1)).contains (pathStem p) = true) :
    ∀ splice, process_c_file_model fs pre c_lines precompiled obj_bytes splice =
      .ok obj_bytes := by
  intro splice
  unfold process_c_file_model
  rw [hpre]
  have hnil : files.filter
      (fun x => !(((precompiled.get_functions).map (fun p => p.1)).contains (pathStem x))) =
      [] := by
    rw [List.filter_eq_nil_iff]
    intro a ha
    rw [hall a ha]
    decide
  simp only [hnil]
  rfl

theorem c6_short_circuit_witness :
    process_c_file_model c6FsW none c6LinesW c6ElfW [9, 9]
      (fun _ _ => .error (.invalidMacro 0 "")) = .ok [9, 9] := by
  have h := c6_short_circuit c6FsW none c6LinesW c6PreW.1 c6PreW.2 c6ElfW [9, 9]
    (by rfl) (by decide)
  exact h (fun _ _ => .error (.invalidMacro 0 ""))


/-- When the forward scan returns an index, it is the first
`.rodata`-named section at or after the start, with no empty-named
(text) section before it in the scanned range. -/
theorem find_rodata_go_found : ∀ (l : List ElfSection) (idx j : Nat),
    find_rodata_go l idx = (j : Int) →
    idx ≤ j ∧ (l[j - idx]?).map ElfSection.name = some ".rodata" ∧
    ∀ k, k < j - idx →
      (l[k]?).map ElfSection.name ≠ some "" ∧
      (l[k]?).map ElfSection.name ≠ some ".rodata" := by
  intro l
  induction l with
  | nil =>
    intro idx j h
    simp only [find_rodata_go] at h
    exfalso
    omega
  | cons s rest ih =>
    intro idx j h
    unfold find_rodata_go at h
    by_cases h1 : s.name = ""
    · rw [if_pos h1] at h
      exfalso
      omega
    · rw [if_neg h1] at h
      by_cases h2 : s.name = ".rodata"
      · rw [if_pos h2] at h
        have hj : j = idx := by omega
        subst hj
        refine ⟨le_refl _, ?_, ?_⟩
        · simp [h2]
        · intro k hk
          simp at hk
      · rw [if_neg h2] at h
        obtain ⟨hle, hget, hforall⟩ := ih (idx + 1) j h
        refine ⟨by omega, ?_, ?_⟩
        · have heq : j - idx = (j - (idx + 1)) + 1 := by omega
          rw [heq]
          simpa using hget
        · intro k hk
          cases k with
          | zero =>
            refine ⟨?_, ?_⟩ <;> simpa using (by assumption : ¬ _)
          | succ k1 =>
            have hk1 : k1 < j - (idx + 1) := by omega
            simpa using hforall k1 hk1

/-- When the forward scan returns `-1`, every `.rodata`-named section
in the scanned range is preceded by an empty-named (text) section. -/
theorem find_rodata_go_none : ∀ (l : List ElfSection) (idx : Nat),
    find_rodata_go l idx = -1 →
    ∀ m : Nat, (l[m]?).map ElfSection.name = some ".rodata" →
    ∃ k, k < m ∧ (l[k]?).map ElfSection.name = some "" := by
  intro l
  induction l with
  | nil =>
    intro idx _ m hm
    simp at hm
  | cons s rest ih =>
    intro idx h m hm
    unfold find_rodata_go at h
    by_cases h1 : s.name = ""
    · cases m with
      | zero =>
        simp at hm
        rw [h1] at hm
        exact absurd hm (by decide)
      | succ m1 => exact ⟨0, by omega, by simpa using h1⟩
    · rw [if_neg h1] at h
      by_cases h2 : s.name = ".rodata"
      · rw [if_pos h2] at h
        exfalso
        omega
      · rw [if_neg h2] at h
        cases m with
        | zero =>
          simp at hm
          exact absurd hm h2
        | succ m1 =>
          obtain ⟨k, hk, hname⟩ := ih (idx + 1) h m1 (by simpa using hm)
          exact ⟨k + 1, by omega, by simpa using hname⟩

/-- C5: the paired read-only-data section is found by scanning forward
from the text section's index; a returned index is the first
`.rodata`-named section after the text section with no text section
(empty name) in between, and `-1` means every `.rodata` section further
on is cut off by another text section (or none exists). -/
theorem c5_positional_rodata_pairing (sections : List ElfSection) (tidx : Nat) :
    (∀ j : Nat, find_rodata_section_index sections tidx = (j : Int) →
      tidx < j ∧ (sections[j]?).map ElfSection.name = some ".rodata" ∧
      ∀ k, tidx < k → k < j →
        (sections[k]?).map ElfSection.name ≠ some "" ∧
        (sections[k]?).map ElfSection.name ≠ some ".rodata") ∧
    (find_rodata_section_index sections tidx = -1 →
      ∀ j : Nat, tidx < j → (sections[j]?).map ElfSection.name = some ".rodata" →
      ∃ k, tidx < k ∧ k < j ∧ (sections[k]?).map ElfSection.name = some "") := by
  constructor
  · intro j h
    obtain ⟨hle, hget, hforall⟩ := find_rodata_go_found (sections.drop (tidx + 1)) (tidx + 1) j h
    refine ⟨by omega, ?_, ?_⟩
    · rw [List.getElem?_drop] at hget
      have heq : tidx + 1 + (j - (tidx + 1)) = j := by omega
      rwa [heq] at hget
    · intro k hk1 hk2
      have hfa := hforall (k - (tidx + 1)) (by omega)
      rw [List.getElem?_drop] at hfa
      have heq : tidx + 1 + (k - (tidx + 1)) = k := by omega
      rwa [heq] at hfa
  · intro h j hj hget
    have hm := find_rodata_go_none (sections.drop (tidx + 1)) (tidx + 1) h (j - (tidx + 1)) ?_
    · obtain ⟨k, hk, hname⟩ := hm
      refine ⟨tidx + 1 + k, by omega, by omega, ?_⟩
      rwa [List.getElem?_drop] at hname
    · rw [List.getElem?_drop]
      have heq : tidx + 1 + (j - (tidx + 1)) = j := by omega
      rwa [heq]

theorem c5_positional_rodata_pairing_witness :
    0 < 2 ∧ (c5SectionsW[2]?).map ElfSection.name = some ".rodata" := by
  have h := (c5_positional_rodata_pairing c5SectionsW 0).1 2 (by rfl)
  exact ⟨h.1, h.2.1⟩


/-- `add_symbol` never changes a text section. -/
theorem add_symbol_text_at (e : Elf) (s : Symbol) (f : Bool) (i : Nat) (fn : String)
    (d : List Nat) (h : e.sections[i]? = some (ElfSection.text fn d)) :
    (Elf.add_symbol e s f).2.sections[i]? = some (ElfSection.text fn d) := by
  unfold Elf.add_symbol
  split
  · exact h
  · split
    · show (e.sections.map (bumpSectionAtBoundary e.symtab.sh_info))[i]? = _
      rw [List.getElem?_map, h]
      rfl
    · exact h

/-- `processEntries` never changes a text section of the compiled
object. -/
theorem processEntries_text_at : ∀ (rels : List Relocation) (e : Elf) (asyms : List Symbol)
    (iro : Bool) (t cnt : Nat) (rsyms : List String)
    (out : Elf × List Symbol × List Relocation × Nat × List String),
    processEntries e asyms iro t rels cnt rsyms = .ok out →
    ∀ (i : Nat) (fn : String) (d : List Nat), e.sections[i]? = some (ElfSection.text fn d) →
      out.1.sections[i]? = some (ElfSection.text fn d) := by
  intro rels
  induction rels with
  | nil =>
    intro e asyms iro t cnt rsyms out h i fn d hsec
    unfold processEntries at h
    injection h with h
    rw [← h]
    exact hsec
  | cons rel rest ih =>
    intro e asyms iro t cnt rsyms out h i fn d hsec
    unfold processEntries at h
    cases hg : asyms[rel.symbol_index]? with
    | none => rw [hg] at h; cases h
    | some symbol =>
      simp only [hg] at h
      split at h
      · cases h
      · rename_i out2 heq
        injection h with h
        rw [← h]
        exact ih _ _ _ _ _ _ _ heq i fn d (add_symbol_text_at _ _ _ _ _ _ hsec)

/-- `processRecords` never changes a text section of the compiled
object. -/
theorem processRecords_text_at : ∀ (records : List RelocationRecord) (e : Elf)
    (asyms : List Symbol) (i cnt : Nat) (rsyms : List String) (tidx : Nat) (ridx : Int)
    (rtn : Nat) (rrn : Option Nat) (out : Elf × List Symbol × Nat × List String),
    processRecords tidx ridx rtn rrn e asyms records i cnt rsyms = .ok out →
    ∀ (j : Nat) (fn : String) (d : List Nat), e.sections[j]? = some (ElfSection.text fn d) →
      out.1.sections[j]? = some (ElfSection.text fn d) := by
  intro records
  induction records with
  | nil =>
    intro e asyms i cnt rsyms tidx ridx rtn rrn out h j fn d hsec
    unfold processRecords at h
    injection h with h
    rw [← h]
    exact hsec
  | cons record rest ih =>
    intro e asyms i cnt rsyms tidx ridx rtn rrn out h j fn d hsec
    unfold processRecords at h
    cases hh : recordHeaderFor record i tidx ridx rtn rrn with
    | error er => rw [hh] at h; cases h
    | ok trip =>
      simp only [hh] at h
      split at h
      · cases h
      · rename_i pe heq
        have hpe := processEntries_text_at _ _ _ _ _ _ _ _ heq j fn d hsec
        have hbound : j < pe.1.sections.length := (List.getElem?_eq_some.mp hpe).1
        have hadd : (pe.1.add_section (.reloc trip.2.2
            { sh_name := trip.1, sh_link := e.symtab_index, sh_info := trip.2.1,
              relocations := pe.2.2.1 })).sections[j]? = some (ElfSection.text fn d) := by
          show (pe.1.sections ++ _)[j]? = _
          rw [List.getElem?_append, if_pos hbound]
          exact hpe
        exact ih _ _ _ _ _ _ _ _ _ _ h j fn d hadd

/-- The local fix-up pass never changes a text section. -/
theorem applyLocalFixup_text_at (e : Elf) (ridx : Int) (initial cnt : Nat) (i : Nat)
    (fn : String) (d : List Nat) (h : e.sections[i]? = some (ElfSection.text fn d)) :
    (applyLocalFixup e ridx initial cnt).sections[i]? = some (ElfSection.text fn d) := by
  unfold applyLocalFixup
  split
  · show (e.sections.map (fixupSection ridx initial cnt))[i]? = _
    rw [List.getElem?_map, h]
    rfl
  · exact h

/-- The relocation carry-over never changes a text section. -/
theorem spliceRelocationRecords_text_at (e : Elf) (asyms : List Symbol)
    (records : List RelocationRecord) (tidx : Nat) (ridx : Int) (rtn : Nat)
    (rrn : Option Nat) (out : Elf × List Symbol × Nat × List String)
    (h : spliceRelocationRecords e asyms records tidx ridx rtn rrn = .ok out) :
    ∀ (i : Nat) (fn : String) (d : List Nat), e.sections[i]? = some (ElfSection.text fn d) →
      out.1.sections[i]? = some (ElfSection.text fn d) := by
  intro i fn d hsec
  unfold spliceRelocationRecords at h
  split at h
  · cases h
  · split at h
    · cases h
    · rename_i mid heq
      injection h with h
      rw [← h]
      exact applyLocalFixup_text_at _ _ _ _ _ _ _
        (processRecords_text_at _ _ _ _ _ _ _ _ _ _ _ heq i fn d hsec)

/-- The trailing symbol carry-over never changes a text section. -/
theorem trailingSymbols_text_at : ∀ (syms : List Symbol) (e : Elf) (tidx : Nat)
    (rsyms : List String) (i : Nat) (fn : String) (d : List Nat),
    e.sections[i]? = some (ElfSection.text fn d) →
    (trailingSymbols tidx rsyms e syms).sections[i]? = some (ElfSection.text fn d) := by
  intro syms
  induction syms with
  | nil =>
    intro e tidx rsyms i fn d hsec
    exact hsec
  | cons s rest ih =>
    intro e tidx rsyms i fn d hsec
    unfold trailingSymbols
    split
    · exact ih _ _ _ _ _ _ hsec
    · split
      · exact ih _ _ _ _ _ _ hsec
      · exact ih _ _ _ _ _ _ (add_symbol_text_at _ _ _ _ _ _ hsec)

/-- Updating index `i` of a list updates exactly that position. -/
theorem listModify_getElem_self : ∀ (l : List ElfSection) (f : ElfSection → ElfSection)
    (i : Nat) (s : ElfSection), l[i]? = some s → (listModify f i l)[i]? = some (f s) := by
  intro l
  induction l with
  | nil =>
    intro f i s h
    simp at h
  | cons s0 rest ih =>
    intro f i s h
    cases i with
    | zero =>
      simp at h
      rw [h]
      simp [listModify]
    | succ i1 =>
      simp only [listModify]
      simpa using ih f i1 s (by simpa using h)

/-- Updating index `i` leaves every other position unchanged. -/
theorem listModify_getElem_other : ∀ (l : List ElfSection) (f : ElfSection → ElfSection)
    (i j : Nat), i ≠ j → (listModify f i l)[j]? = l[j]? := by
  intro l
  induction l with
  | nil =>
    intro f i j _
    cases i <;> simp [listModify]
  | cons s0 rest ih =>
    intro f i j hne
    cases i with
    | zero =>
      cases j with
      | zero => exact absurd rfl hne
      | succ j1 => simp [listModify]
    | succ i1 =>
      cases j with
      | zero => simp [listModify]
      | succ j1 => simpa [listModify] using ih f i1 j1 (by omega)


/-- When the scan finds a rodata index, it lies strictly past the start
index. -/
theorem find_rodata_go_lt : ∀ (l : List ElfSection) (idx j : Nat),
    find_rodata_go l idx = (j : Int) → idx ≤ j := by
  intro l
  induction l with
  | nil =>
    intro idx j h
    simp only [find_rodata_go] at h
    omega
  | cons s rest ih =>
    intro idx j h
    unfold find_rodata_go at h
    by_cases h1 : s.name = ""
    · rw [if_pos h1] at h
      omega
    · rw [if_neg h1] at h
      by_cases h2 : s.name = ".rodata"
      · rw [if_pos h2] at h
        omega
      · rw [if_neg h2] at h
        have := ih (idx + 1) j h
        omega

/-- C1: splicing a function requires the assembled code to be at least
as long as the compiled placeholder (failing with the
insufficient-assembly error otherwise), and on success the placeholder
section's payload is exactly the first placeholder-length bytes of the
assembled code, so the final text section length equals the pre-splice
placeholder length. -/
theorem c1_length_reconciliation (compiled assembled : Elf) (function : String)
    (rtn tidx : Nat) (rrn0 : Option Nat) (afn : String) (atext : List Nat)
    (pfn : String) (pdata : List Nat)
    (hfun : assembled.get_functions = [(afn, atext)])
    (hidx : compiled.sections.findIdx? (isPlaceholderFor function) = some tidx)
    (hsec : compiled.sections[tidx]? = some (ElfSection.text pfn pdata))
    (hro : find_rodata_section_index compiled.sections tidx = -1 ∨
      assembled.rodata_sections.length = 1) :
    (atext.length < pdata.length →
      splice_one compiled assembled function rtn rrn0 = .error .insufficientAssembly) ∧
    (∀ out, splice_one compiled assembled function rtn rrn0 = .ok out →
      out.1.sections[tidx]? = some (ElfSection.text pfn (atext.take pdata.length)) ∧
      (atext.take pdata.length).length = pdata.length ∧
      pdata.length ≤ atext.length) := by
  have hcond : ¬ (decide (find_rodata_section_index compiled.sections tidx > -1) = true ∧
      assembled.rodata_sections.length ≠ 1) := by
    rcases hro with hro | hro
    · rintro ⟨h1, _⟩
      rw [hro] at h1
      simp at h1
    · rintro ⟨_, h2⟩
      exact h2 hro
  constructor
  · intro hlt
    unfold splice_one
    simp only [hfun, hidx, hsec]
    rw [if_neg hcond, if_pos hlt]
  · intro out0 h
    unfold splice_one at h
    simp only [hfun, hidx, hsec] at h
    rw [if_neg hcond] at h
    by_cases hlt : atext.length < pdata.length
    · rw [if_pos hlt] at h
      cases h
    · rw [if_neg hlt] at h
      have hc1 : (listModify (setSectionData (atext.take pdata.length)) tidx
          compiled.sections)[tidx]? = some (ElfSection.text pfn (atext.take pdata.length)) := by
        have := listModify_getElem_self compiled.sections
          (setSectionData (atext.take pdata.length)) tidx _ hsec
        simpa [setSectionData] using this
      by_cases hhr : find_rodata_section_index compiled.sections tidx > -1
      · have hd : decide (find_rodata_section_index compiled.sections tidx > -1) = true := by
          simpa using hhr
        rw [if_pos hd] at h
        obtain ⟨j, hj⟩ : ∃ j : Nat,
            find_rodata_section_index compiled.sections tidx = (j : Int) := by
          refine ⟨(find_rodata_section_index compiled.sections tidx).toNat, ?_⟩
          omega
        have hjgt : tidx < j := by
          have := find_rodata_go_lt (compiled.sections.drop (tidx + 1)) (tidx + 1) j hj
          omega
        have hne : (find_rodata_section_index compiled.sections tidx).toNat ≠ tidx := by
          rw [hj]
          simp
          omega
        have hmid : (listModify (setSectionData (assembled.rodata_sections.getD 0 []))
            (find_rodata_section_index compiled.sections tidx).toNat
            (listModify (setSectionData (atext.take pdata.length)) tidx
              compiled.sections))[tidx]? =
            some (ElfSection.text pfn (atext.take pdata.length)) := by
          rw [listModify_getElem_other _ _ _ _ hne]
          exact hc1
        split at h
        · cases h
        · rename_i out heq
          injection h with h
          rw [← h]
          refine ⟨trailingSymbols_text_at _ _ _ _ _ _ _
            (spliceRelocationRecords_text_at _ _ _ _ _ _ _ _ heq tidx pfn _ hmid), ?_, ?_⟩
          · rw [List.length_take]
            omega
          · omega
      · have hd : decide (find_rodata_section_index compiled.sections tidx > -1) = false := by
          simpa using hhr
        rw [if_neg (by simp [hd])] at h
        split at h
        · cases h
        · rename_i out heq
          injection h with h
          rw [← h]
          refine ⟨trailingSymbols_text_at _ _ _ _ _ _ _
            (spliceRelocationRecords_text_at _ _ _ _ _ _ _ _ heq tidx pfn _ hc1), ?_, ?_⟩
          · rw [List.length_take]
            omega
          · omega

theorem c1_length_reconciliation_witness :
    c1OutW.1.sections[0]? = some (ElfSection.text "mwccgap_fn1" [1, 2, 3, 4]) ∧
    ([1, 2, 3, 4, 5, 6, 7, 8].take 4).length = 4 := by
  have h := (c1_length_reconciliation c1CompiledW c1AssembledW "fn1" 5 0 none "fn1"
    [1, 2, 3, 4, 5, 6, 7, 8] "mwccgap_fn1" [9, 9, 9, 9] rfl rfl rfl
    (Or.inl rfl)).2 c1OutW (by rfl)
  exact ⟨h.1, h.2.1⟩


/-- The boundary bump keeps relocation headers. -/
theorem relocHeader_bump (b : Nat) (s : ElfSection) :
    relocHeader (bumpSectionAtBoundary b s) = relocHeader s := by
  cases s <;> rfl

/-- The fix-up pass keeps relocation headers. -/
theorem relocHeader_fixup (ridx : Int) (initial cnt : Nat) (s : ElfSection) :
    relocHeader (fixupSection ridx initial cnt s) = relocHeader s := by
  cases s with
  | reloc n r =>
    by_cases hc : r.sh_info = ridx <;> simp [fixupSection, relocHeader, hc]
  | text fn d => rfl
  | rodata d => rfl
  | other n => rfl

/-- `add_symbol` keeps the relocation headers of the object. -/
theorem add_symbol_relocHeaders (e : Elf) (s : Symbol) (f : Bool) :
    relocHeaders (Elf.add_symbol e s f).2 = relocHeaders e := by
  unfold Elf.add_symbol
  split
  · rfl
  · split
    · show (e.sections.map (bumpSectionAtBoundary e.symtab.sh_info)).filterMap relocHeader =
        e.sections.filterMap relocHeader
      rw [List.filterMap_map]
      exact List.filterMap_congr (fun s _ => relocHeader_bump e.symtab.sh_info s)
    · rfl

/-- `add_symbol` keeps the symbol-table section index. -/
theorem add_symbol_symtab_index (e : Elf) (s : Symbol) (f : Bool) :
    (Elf.add_symbol e s f).2.symtab_index = e.symtab_index := by
  unfold Elf.add_symbol
  split
  · rfl
  · split <;> rfl

/-- `processEntries` keeps relocation headers and the symbol-table
index of the compiled object. -/
theorem processEntries_headers : ∀ (rels : List Relocation) (e : Elf) (asyms : List Symbol)
    (iro : Bool) (t cnt : Nat) (rsyms : List String)
    (out : Elf × List Symbol × List Relocation × Nat × List String),
    processEntries e asyms iro t rels cnt rsyms = .ok out →
    relocHeaders out.1 = relocHeaders e ∧ out.1.symtab_index = e.symtab_index := by
  intro rels
  induction rels with
  | nil =>
    intro e asyms iro t cnt rsyms out h
    unfold processEntries at h
    injection h with h
    rw [← h]
    exact ⟨rfl, rfl⟩
  | cons rel rest ih =>
    intro e asyms iro t cnt rsyms out h
    unfold processEntries at h
    cases hg : asyms[rel.symbol_index]? with
    | none => rw [hg] at h; cases h
    | some symbol =>
      simp only [hg] at h
      split at h
      · cases h
      · rename_i out2 heq
        injection h with h
        rw [← h]
        obtain ⟨h1, h2⟩ := ih _ _ _ _ _ _ _ heq
        refine ⟨?_, ?_⟩
        · show relocHeaders out2.1 = _
          rw [h1, add_symbol_relocHeaders]
        · show out2.1.symtab_index = _
          rw [h2, add_symbol_symtab_index]

/-- Appending a relocation section appends its header. -/
theorem add_section_relocHeaders (e : Elf) (n : String) (r : RelocationRecord) :
    relocHeaders (e.add_section (.reloc n r)) =
      relocHeaders e ++ [(n, r.sh_name, r.sh_link, r.sh_info)] := by
  show (e.sections ++ [ElfSection.reloc n r]).filterMap relocHeader = _
  rw [List.filterMap_append]
  rfl

/-- The fix-up pass keeps the relocation headers of the object. -/
theorem applyLocalFixup_relocHeaders (e : Elf) (ridx : Int) (initial cnt : Nat) :
    relocHeaders (applyLocalFixup e ridx initial cnt) = relocHeaders e := by
  unfold applyLocalFixup
  split
  · show (e.sections.map (fixupSection ridx initial cnt)).filterMap relocHeader =
      e.sections.filterMap relocHeader
    rw [List.filterMap_map]
    exact List.filterMap_congr (fun s _ => relocHeader_fixup ridx initial cnt s)
  · rfl

/-- Entry processing fails only on an out-of-range symbol index. -/
theorem processEntries_error : ∀ (rels : List Relocation) (e : Elf) (asyms : List Symbol)
    (iro : Bool) (t cnt : Nat) (rsyms : List String) (er : SpliceErr),
    processEntries e asyms iro t rels cnt rsyms = .error er →
    ∃ rel ∈ rels, asyms.length ≤ rel.symbol_index := by
  intro rels
  induction rels with
  | nil =>
    intro e asyms iro t cnt rsyms er h
    unfold processEntries at h
    cases h
  | cons rel rest ih =>
    intro e asyms iro t cnt rsyms er h
    unfold processEntries at h
    cases hg : asyms[rel.symbol_index]? with
    | none =>
      refine ⟨rel, by simp, ?_⟩
      by_contra hlt
      push_neg at hlt
      rw [List.getElem?_eq_getElem hlt] at hg
      cases hg
    | some symbol =>
      simp only [hg] at h
      split at h
      · rename_i er2 heq
        obtain ⟨r2, hr2, hb2⟩ := ih _ _ _ _ _ _ _ heq
        refine ⟨r2, by simp [hr2], ?_⟩
        by_cases hiro : iro
        · simp [hiro, List.length_set] at hb2
          exact hb2
        · simp [hiro] at hb2
          exact hb2
      · cases h

/-- Entry processing keeps the length of the assembled symbol list. -/
theorem processEntries_length : ∀ (rels : List Relocation) (e : Elf) (asyms : List Symbol)
    (iro : Bool) (t cnt : Nat) (rsyms : List String)
    (out : Elf × List Symbol × List Relocation × Nat × List String),
    processEntries e asyms iro t rels cnt rsyms = .ok out →
    out.2.1.length = asyms.length := by
  intro rels
  induction rels with
  | nil =>
    intro e asyms iro t cnt rsyms out h
    unfold processEntries at h
    injection h with h
    rw [← h]
  | cons rel rest ih =>
    intro e asyms iro t cnt rsyms out h
    unfold processEntries at h
    cases hg : asyms[rel.symbol_index]? with
    | none => rw [hg] at h; cases h
    | some symbol =>
      simp only [hg] at h
      split at h
      · cases h
      · rename_i out2 heq
        injection h with h
        rw [← h]
        have hl := ih _ _ _ _ _ _ _ heq
        show out2.2.1.length = _
        rw [hl]
        by_cases hiro : iro
        · simp [hiro, List.length_set]
        · simp [hiro]

/-- Entry processing succeeds when every entry's symbol index is in
range. -/
theorem processEntries_total (rels : List Relocation) (e : Elf) (asyms : List Symbol)
    (iro : Bool) (t cnt : Nat) (rsyms : List String)
    (hb : ∀ rel ∈ rels, rel.symbol_index < asyms.length) :
    ∃ out, processEntries e asyms iro t rels cnt rsyms = .ok out := by
  cases hres : processEntries e asyms iro t rels cnt rsyms with
  | ok out => exact ⟨out, rfl⟩
  | error er =>
    obtain ⟨rel, hmem, hge⟩ := processEntries_error rels e asyms iro t cnt rsyms er hres
    have := hb rel hmem
    omega

/-- Replacing a section's payload keeps its relocation header. -/
theorem relocHeader_setSectionData (d : List Nat) (s : ElfSection) :
    relocHeader (setSectionData d s) = relocHeader s := by
  cases s <;> rfl

/-- The payload replacement at one index keeps the relocation headers
of the section list. -/
theorem listModify_relocHeaders : ∀ (l : List ElfSection) (i : Nat) (d : List Nat),
    (listModify (setSectionData d) i l).filterMap relocHeader = l.filterMap relocHeader := by
  intro l
  induction l with
  | nil =>
    intro i d
    cases i <;> rfl
  | cons s rest ih =>
    intro i d
    cases i with
    | zero =>
      show ((setSectionData d s) :: rest).filterMap relocHeader = _
      simp [List.filterMap_cons, relocHeader_setSectionData]
    | succ i1 =>
      show (s :: listModify (setSectionData d) i1 rest).filterMap relocHeader = _
      simp [List.filterMap_cons, ih]

/-- The trailing symbol carry-over keeps relocation headers. -/
theorem trailingSymbols_relocHeaders : ∀ (syms : List Symbol) (e : Elf) (tidx : Nat)
    (rsyms : List String),
    relocHeaders (trailingSymbols tidx rsyms e syms) = relocHeaders e := by
  intro syms
  induction syms with
  | nil =>
    intro e tidx rsyms
    rfl
  | cons s rest ih =>
    intro e tidx rsyms
    unfold trailingSymbols
    split
    · exact ih _ _ _
    · split
      · exact ih _ _ _
      · rw [ih _ _ _, add_symbol_relocHeaders]

/-- With two records and a minted name, the carried-over headers are
the text header followed by the read-only-data header bearing the
minted name. -/
theorem spliceRelocationRecords_two_headers (e : Elf) (asyms : List Symbol)
    (r0 r1 : RelocationRecord) (tidx : Nat) (ridx : Int) (rtn : Nat) (rrn : Option Nat)
    (out : Elf × List Symbol × Nat × List String)
    (hok : spliceRelocationRecords e asyms [r0, r1] tidx ridx rtn rrn = .ok out) :
    ∃ n, rrn = some n ∧
      relocHeaders out.1 =
        relocHeaders e ++ [(".rel.text", rtn, e.symtab_index, (tidx : Int)),
          (".rel.rodata", n, e.symtab_index, ridx)] := by
  unfold spliceRelocationRecords at hok
  rw [if_neg (by simp)] at hok
  cases hrrn : rrn with
  | none =>
    cases hpe : processEntries e asyms false tidx r0.relocations 0 [] with
    | error er => simp [processRecords, recordHeaderFor, hpe, hrrn] at hok
    | ok pe => simp [processRecords, recordHeaderFor, hpe, hrrn] at hok
  | some n =>
    cases hpe : processEntries e asyms false tidx r0.relocations 0 [] with
    | error er => simp [processRecords, recordHeaderFor, hpe, hrrn] at hok
    | ok pe =>
      simp [processRecords, recordHeaderFor, hpe, hrrn] at hok
      split at hok
      · simp at hok
      · rename_i pe2 heq2
        injection hok with hok
        refine ⟨n, rfl, ?_⟩
        rw [← hok]
        dsimp only
        rw [applyLocalFixup_relocHeaders]
        split at heq2
        · cases heq2
        · rename_i out2 hpe2
          injection heq2 with heq2
          subst heq2
          dsimp only
          rw [add_section_relocHeaders,
            (processEntries_headers _ _ _ _ _ _ _ _ hpe2).1,
            add_section_relocHeaders,
            (processEntries_headers _ _ _ _ _ _ _ _ hpe).1]
          simp [Elf.add_section, (processEntries_headers _ _ _ _ _ _ _ _ hpe).2]

/-- With two records, a minted name, and in-range entries, the
carry-over succeeds. -/
theorem spliceRelocationRecords_two_total (e : Elf) (asyms : List Symbol)
    (r0 r1 : RelocationRecord) (tidx : Nat) (ridx : Int) (rtn n : Nat)
    (hb0 : ∀ rel ∈ r0.relocations, rel.symbol_index < asyms.length)
    (hb1 : ∀ rel ∈ r1.relocations, rel.symbol_index < asyms.length) :
    ∃ out, spliceRelocationRecords e asyms [r0, r1] tidx ridx rtn (some n) = .ok out := by
  cases hres : spliceRelocationRecords e asyms [r0, r1] tidx ridx rtn (some n) with
  | ok out => exact ⟨out, rfl⟩
  | error er =>
    exfalso
    unfold spliceRelocationRecords at hres
    rw [if_neg (by simp)] at hres
    cases hpe : processEntries e asyms false tidx r0.relocations 0 [] with
    | error er3 =>
      obtain ⟨rel, hmem, hge⟩ := processEntries_error _ _ _ _ _ _ _ _ hpe
      have := hb0 rel hmem
      omega
    | ok pe =>
      simp [processRecords, recordHeaderFor, hpe] at hres
      split at hres
      · rename_i er4 heq4
        split at heq4
        · rename_i er5 heq5
          obtain ⟨rel, hmem, hge⟩ := processEntries_error _ _ _ _ _ _ _ _ heq5
          have hlen := processEntries_length _ _ _ _ _ _ _ _ hpe
          have := hb1 rel hmem
          omega
        · cases heq4
      · simp at hres

/-- C7: three or more relocation records in the assembled object are a
fatal error; with one record it is processed as the text relocation
(`.rel.text` name, target the located text section index), and with two
the second is the read-only-data relocation (`.rel.rodata` name, target
the located rodata section index), which requires the minted
`.rel.rodata` name to exist. -/
theorem c7_relocation_record_headers (e : Elf) (asyms : List Symbol)
    (records : List RelocationRecord) (tidx : Nat) (ridx : Int) (rtn : Nat)
    (rrn : Option Nat) :
    (records.length ≥ 3 →
      spliceRelocationRecords e asyms records tidx ridx rtn rrn =
        .error .tooManyRelocationRecords) ∧
    (∀ r0 out, records = [r0] →
      spliceRelocationRecords e asyms records tidx ridx rtn rrn = .ok out →
      relocHeaders out.1 =
        relocHeaders e ++ [(".rel.text", rtn, e.symtab_index, (tidx : Int))]) ∧
    (∀ r0 r1 out, records = [r0, r1] →
      spliceRelocationRecords e asyms records tidx ridx rtn rrn = .ok out →
      ∃ n, rrn = some n ∧
        relocHeaders out.1 =
          relocHeaders e ++ [(".rel.text", rtn, e.symtab_index, (tidx : Int)),
            (".rel.rodata", n, e.symtab_index, ridx)]) := by
  refine ⟨?_, ?_, ?_⟩
  · intro h3
    unfold spliceRelocationRecords
    rw [if_pos h3]
  · intro r0 out hrec hok
    subst hrec
    unfold spliceRelocationRecords at hok
    rw [if_neg (by simp)] at hok
    cases hpe : processEntries e asyms false tidx r0.relocations 0 [] with
    | error er => simp [processRecords, recordHeaderFor, hpe] at hok
    | ok pe =>
      simp [processRecords, recordHeaderFor, hpe] at hok
      rw [← hok]
      dsimp only
      rw [applyLocalFixup_relocHeaders, add_section_relocHeaders,
        (processEntries_headers _ _ _ _ _ _ _ _ hpe).1]
  · intro r0 r1 out hrec hok
    subst hrec
    exact spliceRelocationRecords_two_headers e asyms r0 r1 tidx ridx rtn rrn out hok


theorem c7_relocation_record_headers_witness :
    relocHeaders c7OutW.1 = [(".rel.text", 11, 3, 0)] := by
  have h := (c7_relocation_record_headers c7ElfW [] [c7RecordW] 0 (-1) 11 none).2.1
    c7RecordW c7OutW rfl (by rfl)
  simpa using h

/-- C10 (amended): with two relocation records and no located
read-only-data section, the outcome depends on the function-scoped
`.rel.rodata` header-name binding left by earlier files of the unit.
While it is unbound the splice fails, never attaching the second
record, and when the first record's entries process cleanly the failure
is exactly the reference to the unminted name; but once an earlier file
minted the name, the splice succeeds and attaches the second record
under the stale name with target section index `-1`. -/
theorem c10_stale_rodata_name (compiled assembled : Elf) (function : String)
    (rtn tidx : Nat) (afn : String) (atext : List Nat) (pfn : String) (pdata : List Nat)
    (r0 r1 : RelocationRecord)
    (hfun : assembled.get_functions = [(afn, atext)])
    (hidx : compiled.sections.findIdx? (isPlaceholderFor function) = some tidx)
    (hsec : compiled.sections[tidx]? = some (ElfSection.text pfn pdata))
    (hnone : find_rodata_section_index compiled.sections tidx = -1)
    (hlen : pdata.length ≤ atext.length)
    (hrec : assembled.get_relocations = [r0, r1]) :
    (∀ res, splice_one compiled assembled function rtn none ≠ .ok res) ∧
    (∀ pe, processEntries
        { compiled with sections := (listModify (setSectionData (atext.take pdata.length))
            tidx compiled.sections) }
        assembled.symtab.symbols false tidx r0.relocations 0 [] = .ok pe →
      splice_one compiled assembled function rtn none = .error .relRodataNameUnbound) ∧
    (∀ (n : Nat) (e2 : Elf) (rrn1 : Option Nat),
      splice_one compiled assembled function rtn (some n) = .ok (e2, rrn1) →
      rrn1 = some n ∧
      relocHeaders e2 = relocHeaders compiled ++
        [(".rel.text", rtn, compiled.symtab_index, (tidx : Int)),
         (".rel.rodata", n, compiled.symtab_index, -1)]) ∧
    (∀ n : Nat,
      (∀ rel ∈ r0.relocations, rel.symbol_index < assembled.symtab.symbols.length) →
      (∀ rel ∈ r1.relocations, rel.symbol_index < assembled.symtab.symbols.length) →
      ∃ res, splice_one compiled assembled function rtn (some n) = .ok res) := by
  have hcond : ¬ (decide (find_rodata_section_index compiled.sections tidx > -1) = true ∧
      assembled.rodata_sections.length ≠ 1) := by
    rintro ⟨h1, _⟩
    rw [hnone] at h1
    simp at h1
  refine ⟨?_, ?_, ?_, ?_⟩
  · intro res hok
    unfold splice_one at hok
    simp only [hfun, hidx, hsec] at hok
    rw [if_neg hcond, if_neg (by omega)] at hok
    rw [hnone] at hok
    simp only [hrec] at hok
    unfold spliceRelocationRecords at hok
    rw [if_neg (by simp)] at hok
    cases hpe : processEntries
        { compiled with sections := (listModify (setSectionData (atext.take pdata.length))
            tidx compiled.sections) }
        assembled.symtab.symbols false tidx r0.relocations 0 [] with
    | error er => simp [processRecords, recordHeaderFor, hpe] at hok
    | ok pe => simp [processRecords, recordHeaderFor, hpe] at hok
  · intro pe hpe
    unfold splice_one
    simp only [hfun, hidx, hsec]
    rw [if_neg hcond, if_neg (by omega)]
    rw [hnone]
    simp only [hrec]
    unfold spliceRelocationRecords
    rw [if_neg (by simp)]
    simp [processRecords, recordHeaderFor, hpe]
  · intro n e2 rrn1 hok
    unfold splice_one at hok
    simp only [hfun, hidx, hsec] at hok
    rw [if_neg hcond, if_neg (by omega)] at hok
    rw [hnone] at hok
    simp only [hrec] at hok
    rw [if_neg (by decide)] at hok
    split at hok
    · cases hok
    · rename_i out hsr
      injection hok with hok
      injection hok with h1 h2
      refine ⟨by rw [← h2], ?_⟩
      rw [← h1]
      rw [trailingSymbols_relocHeaders]
      obtain ⟨n2, hn2, hhd⟩ := spliceRelocationRecords_two_headers _ _ _ _ _ _ _ _ _ hsr
      have h3 : some n = some n2 := hn2
      injection h3 with h3
      subst h3
      rw [hhd]
      simp only [relocHeaders]
      rw [listModify_relocHeaders]
  · intro n hb0 hb1
    obtain ⟨out, hout⟩ := spliceRelocationRecords_two_total
      { compiled with sections := (listModify (setSectionData (atext.take pdata.length))
          tidx compiled.sections) }
      assembled.symtab.symbols r0 r1 tidx (-1) rtn n hb0 hb1
    refine ⟨(trailingSymbols tidx out.2.2.2 out.1 out.2.1, some n), ?_⟩
    unfold splice_one
    simp only [hfun, hidx, hsec]
    rw [if_neg hcond, if_neg (by omega)]
    rw [hnone]
    simp only [hrec]
    rw [if_neg (by decide)]
    dsimp only
    rw [hout]

theorem c10_stale_rodata_name_witness :
    splice_one c10CompiledW c10AssembledW "fn2" 4 none = .error .relRodataNameUnbound ∧
    (∃ res, splice_one c10CompiledW c10AssembledW "fn2" 4 (some 9) = .ok res) := by
  have h := c10_stale_rodata_name c10CompiledW c10AssembledW "fn2" 4 0
    "fn2" [1, 2, 3, 4] "mwccgap_fn2" [7, 7, 7, 7] ⟨0, 0, 0, []⟩ ⟨0, 0, 0, []⟩
    rfl rfl rfl rfl (by decide) rfl
  exact ⟨h.2.1 _ rfl, h.2.2.2 9 (by simp) (by simp)⟩

/-- The stale-binding run refuting the frozen C10: the first file pairs
the rodata section and mints the `.rel.rodata` name; the second file
contributes two relocation records with no located rodata section, yet
the loop succeeds and attaches the second record under the stale minted
name with target section index `-1`. -/
theorem c10_counterexample :
    splice_one c10CompiledX c10Asm1X "A" 7 none = .ok c10MidX ∧
    c10MidX.2 = some 0 ∧
    find_rodata_section_index c10MidX.1.sections 2 = -1 ∧
    c10MidX.1.sections.findIdx? (isPlaceholderFor "B") = some 2 ∧
    (c10Asm2X.get_relocations).length = 2 ∧
    (splice_one c10MidX.1 c10Asm2X "B" 7 c10MidX.2).map (fun out => relocHeaders out.1) =
      .ok [(".rel.text", 7, 4, 2), (".rel.rodata", 0, 4, -1)] ∧
    (splice_files 7 c10CompiledX none [(c10Asm1X, "A"), (c10Asm2X, "B")]).map relocHeaders =
      .ok [(".rel.text", 7, 4, 2), (".rel.rodata", 0, 4, -1)] := by
  exact ⟨rfl, rfl, rfl, rfl, rfl, rfl, rfl⟩


/-- Two symbol lists with pointwise equal binding classes classify
relocation entries identically. -/
theorem relocIsLocal_congr (a b : List Symbol)
    (hb : ∀ j : Nat, (a[j]?).map Symbol.bind = (b[j]?).map Symbol.bind) :
    ∀ r, relocIsLocal a r = relocIsLocal b r := by
  intro r
  unfold relocIsLocal
  have h := hb r.symbol_index
  cases ha : a[r.symbol_index]? with
  | none =>
    rw [ha] at h
    cases hbb : b[r.symbol_index]? with
    | none => rfl
    | some sb => rw [hbb] at h; cases h
  | some sa =>
    rw [ha] at h
    cases hbb : b[r.symbol_index]? with
    | none => rw [hbb] at h; cases h
    | some sb =>
      rw [hbb] at h
      injection h with h
      simp [h]

/-- Pointwise-equal binds give equal local entry counts. -/
theorem localEntryCount_congr (a b : List Symbol)
    (hb : ∀ j : Nat, (a[j]?).map Symbol.bind = (b[j]?).map Symbol.bind) :
    ∀ records, localEntryCount a records = localEntryCount b records := by
  intro records
  induction records with
  | nil => rfl
  | cons r rest ih =>
    unfold localEntryCount
    rw [ih, List.countP_congr (fun x _ => by rw [relocIsLocal_congr a b hb x])]

/-- Entry processing: the final count adds exactly the number of
entries whose referenced symbol is local, and the assembled symbol
list's binding classes are unchanged (only `st_shndx` is repointed). -/
theorem processEntries_count : ∀ (rels : List Relocation) (e : Elf) (asyms : List Symbol)
    (iro : Bool) (t cnt : Nat) (rsyms : List String)
    (out : Elf × List Symbol × List Relocation × Nat × List String),
    processEntries e asyms iro t rels cnt rsyms = .ok out →
    out.2.2.2.1 = cnt + rels.countP (relocIsLocal asyms) ∧
    (∀ j : Nat, (out.2.1[j]?).map Symbol.bind = (asyms[j]?).map Symbol.bind) := by
  intro rels
  induction rels with
  | nil =>
    intro e asyms iro t cnt rsyms out h
    unfold processEntries at h
    injection h with h
    rw [← h]
    exact ⟨rfl, fun j => rfl⟩
  | cons rel rest ih =>
    intro e asyms iro t cnt rsyms out h
    unfold processEntries at h
    cases hg : asyms[rel.symbol_index]? with
    | none => rw [hg] at h; cases h
    | some symbol =>
      simp only [hg] at h
      split at h
      · cases h
      · rename_i out2 heq
        injection h with h
        rw [← h]
        obtain ⟨hcnt, hbind⟩ := ih _ _ _ _ _ _ _ heq
        have hset : ∀ j : Nat,
            ((if iro then asyms.set rel.symbol_index
                (if iro then { symbol with st_shndx := (t : Int) } else symbol)
              else asyms)[j]?).map Symbol.bind = (asyms[j]?).map Symbol.bind := by
          intro j
          by_cases hiro : iro
          · simp only [hiro, if_true, List.getElem?_set]
            by_cases hij : rel.symbol_index = j
            · subst hij
              by_cases hlen : rel.symbol_index < asyms.length
              · rw [if_pos rfl, if_pos hlen, hg]
                rfl
              · rw [List.getElem?_eq_none (by omega)] at hg
                cases hg
            · rw [if_neg hij]
          · simp [hiro]
        refine ⟨?_, ?_⟩
        · show out2.2.2.2.1 = _
          rw [hcnt]
          have hc2 : rest.countP (relocIsLocal (if iro then asyms.set rel.symbol_index
              (if iro then { symbol with st_shndx := (t : Int) } else symbol) else asyms)) =
              rest.countP (relocIsLocal asyms) :=
            List.countP_congr (fun x _ => by rw [relocIsLocal_congr _ _ hset x])
          rw [hc2, List.countP_cons]
          have hloc : relocIsLocal asyms rel = (symbol.bind == 0) := by
            unfold relocIsLocal
            rw [hg]
          rw [hloc]
          by_cases hbz : symbol.bind = 0 <;> simp [hbz] <;> omega
        · intro j
          show (out2.2.1[j]?).map Symbol.bind = _
          rw [hbind j, hset j]

/-- The cons equation of `localEntryCount`. -/
theorem localEntryCount_cons (a : List Symbol) (r : RelocationRecord)
    (rest : List RelocationRecord) :
    localEntryCount a (r :: rest) =
      r.relocations.countP (relocIsLocal a) + localEntryCount a rest := rfl

/-- Record processing accumulates exactly the local entry count of the
records. -/
theorem processRecords_count : ∀ (records : List RelocationRecord) (e : Elf)
    (asyms : List Symbol) (i cnt : Nat) (rsyms : List String) (tidx : Nat) (ridx : Int)
    (rtn : Nat) (rrn : Option Nat) (out : Elf × List Symbol × Nat × List String),
    processRecords tidx ridx rtn rrn e asyms records i cnt rsyms = .ok out →
    out.2.2.1 = cnt + localEntryCount asyms records := by
  intro records
  induction records with
  | nil =>
    intro e asyms i cnt rsyms tidx ridx rtn rrn out h
    unfold processRecords at h
    injection h with h
    rw [← h]
    show cnt = cnt + localEntryCount asyms []
    simp [localEntryCount]
  | cons record rest ih =>
    intro e asyms i cnt rsyms tidx ridx rtn rrn out h
    unfold processRecords at h
    cases hh : recordHeaderFor record i tidx ridx rtn rrn with
    | error er => rw [hh] at h; cases h
    | ok trip =>
      simp only [hh] at h
      split at h
      · cases h
      · rename_i pe heq
        obtain ⟨hcnt, hbind⟩ := processEntries_count _ _ _ _ _ _ _ _ heq
        have hrec := ih _ _ _ _ _ _ _ _ _ _ h
        rw [hrec, hcnt, localEntryCount_congr _ _ hbind rest, localEntryCount_cons]
        omega

/-- A zero bump is the identity. -/
theorem bumpRelocation_zero (b : Nat) (r : Relocation) : bumpRelocation b 0 r = r := by
  unfold bumpRelocation
  split
  · cases r
    simp
  · rfl

/-- The fix-up with a zero count is the identity. -/
theorem fixupSection_zero (ridx : Int) (initial : Nat) (s : ElfSection) :
    fixupSection ridx initial 0 s = s := by
  cases s with
  | reloc n r =>
    by_cases hc : r.sh_info = ridx
    · simp [fixupSection, hc]
    · simp only [fixupSection, if_neg hc]
      have hmap : r.relocations.map (bumpRelocation initial 0) = r.relocations.map id :=
        List.map_congr_left (fun x _ => bumpRelocation_zero initial x)
      rw [hmap, List.map_id]
  | text fn d => rfl
  | rodata d => rfl
  | other n => rfl

/-- The fix-up pass maps `fixupSection` over the sections (also when
the count is zero and the source-level guard skips the loop). -/
theorem applyLocalFixup_sections (e : Elf) (ridx : Int) (initial cnt : Nat) :
    (applyLocalFixup e ridx initial cnt).sections =
      e.sections.map (fixupSection ridx initial cnt) := by
  unfold applyLocalFixup
  split
  · rfl
  · rename_i hc
    have hc0 : cnt = 0 := by omega
    subst hc0
    have hmap : e.sections.map (fixupSection ridx initial 0) = e.sections.map id :=
      List.map_congr_left (fun s _ => fixupSection_zero ridx initial s)
    rw [hmap, List.map_id]

/-- C2 (amended): during relocation carry-over for one assembled file,
the tracked count equals the number of relocation entries whose
referenced symbol has local binding (entries naming an already-present
symbol are counted but reused, so the count can exceed the number of
freshly inserted symbols), and the final object is the carry-over
result with the fix-up pass applied: every relocation record whose
`sh_info` differs from the rodata section index has each entry with
symbol index at or past the pre-insertion local/global boundary bumped
by exactly that count; records targeting the rodata section index are
left untouched. -/
theorem c2_local_insertion_fixup (e : Elf) (asyms : List Symbol)
    (records : List RelocationRecord) (tidx : Nat) (ridx : Int) (rtn : Nat)
    (rrn : Option Nat) (out : Elf × List Symbol × Nat × List String)
    (h : spliceRelocationRecords e asyms records tidx ridx rtn rrn = .ok out) :
    out.2.2.1 = localEntryCount asyms records ∧
    ∃ mid : Elf × List Symbol × Nat × List String,
      processRecords tidx ridx rtn rrn e asyms records 0 0 [] = .ok mid ∧
      out.1 = applyLocalFixup mid.1 ridx e.symtab.sh_info mid.2.2.1 ∧
      out.1.sections = mid.1.sections.map (fixupSection ridx e.symtab.sh_info mid.2.2.1) := by
  unfold spliceRelocationRecords at h
  split at h
  · cases h
  · split at h
    · cases h
    · rename_i mid hmid
      injection h with h
      rw [← h]
      have hcnt := processRecords_count _ _ _ _ _ _ _ _ _ _ _ hmid
      refine ⟨?_, mid, hmid, rfl, ?_⟩
      · show mid.2.2.1 = _
        rw [hcnt]
        omega
      · exact applyLocalFixup_sections _ _ _ _

/-- C2 counterexample: both entries of the text record reference the
same fresh local symbol, so the tracked count is 2 while only one
symbol is freshly inserted (the symbol table grows from 2 to 3
entries); moreover the pre-existing record targeting the rodata
section index is exempted from the fix-up pass. -/
theorem c2_counterexample :
    (spliceRelocationRecords c2ElfX c2AsymsX c2RecordsX 0 1 40 none).map
        (fun o => (o.2.2.1, o.1.symtab.symbols.length, o.1.sections[2]?)) =
      .ok (2, 3, some (.reloc ".rel.pre" ⟨3, 2, 1, [⟨0, 2, 2⟩]⟩)) ∧
    c2ElfX.symtab.symbols.length = 2 := by
  constructor
  · rfl
  · rfl

theorem c2_local_insertion_fixup_witness :
    c2OutX.2.2.1 = localEntryCount c2AsymsX c2RecordsX ∧
    localEntryCount c2AsymsX c2RecordsX = 2 := by
  have h := c2_local_insertion_fixup c2ElfX c2AsymsX c2RecordsX 0 1 40 none c2OutX (by rfl)
  exact ⟨h.1, by rfl⟩

end Mwccgap
